import Mathlib

/-!
# Verification of the IPC simulator core

A shallow embedding of the simulation/deadlock-detection core of the IPC
visualizer (`src/lib/types.ts`, `src/lib/deadlock-utils.ts`,
`src/components/ProcessCanvas.tsx`), together with proofs about the
properties claimed of it.

Modelling conventions:

* React state (`processes`, `connections`, `dataTransfers`) becomes an explicit
  `SimState` record; each event handler becomes a pure function from state to
  state.  Successive `setX(...)` calls inside one handler are modelled as
  sequential assignments to the corresponding field, i.e. every assignment
  reads the state produced by the previous one (the intended single-writer
  semantics described by the design; timer callbacks are modelled as separate
  operations invoked on the state current at fire time).
* JavaScript numbers used here are integers (`Int`); the idiom `x || d` on a
  possibly-undefined number is `jsOrInt : Option Int → Int → Int`, which is
  faithful to JS truthiness (both `undefined` and `0` select the default).
* `generateId()` values, `Date.now()` timestamps and the random transfer size
  are opaque environment-supplied inputs; they are passed as parameters.
  Process/connection ids are opaque non-numeric strings, so JS `Record` key
  enumeration order is insertion order.
* The recursion of the deadlock DFS is expressed with an explicit fuel
  parameter; `detectDeadlockCycles` instantiates it with a bound large enough
  that it is never exhausted (proved below).  The `finished` field of
  `DfsState` is ghost instrumentation recording the order in which nodes leave
  the recursion stack; no branch of the algorithm ever reads it.
* The `id` and `detectedAt` fields of a `DeadlockCycle` are a fresh random id
  and a wall-clock timestamp; they carry no information about the detected
  cycle and are omitted from the record.
-/

namespace IPC

/-- Embedding of `IPCType` from `types.ts`. -/
inductive IPCType where
  | pipe
  | queue
  | memory
deriving DecidableEq

/-- Embedding of `ProcessState` from `types.ts`. -/
inductive PState where
  | idle
  | running
  | blocked
  | deadlocked
deriving DecidableEq

/-- Connection state from `types.ts`. -/
inductive CState where
  | idle
  | active
  | deadlocked
deriving DecidableEq

/-- Embedding of `MemoryAccessType` from `types.ts`. -/
inductive MemoryAccessType where
  | read
  | write
deriving DecidableEq

/-- The `memoryAccess` tag of a process (`types.ts`). -/
structure MemoryAccess where
  type : MemoryAccessType
  regionId : String
deriving DecidableEq

/-- The reader/writer semaphore of a shared-memory region (`types.ts`). -/
structure Semaphore where
  maxReaders : Int
  currentReaders : Int
  hasWriter : Bool
deriving DecidableEq

/-- Embedding of the `memoryRegion` record of a connection (`types.ts`). -/
structure MemoryRegion where
  id : String
  semaphore : Semaphore
deriving DecidableEq

/-- Canvas position; opaque to the core. -/
structure Position where
  x : Int
  y : Int
deriving DecidableEq

/-- Embedding of `Process` from `types.ts`. -/
structure Process where
  id : String
  name : String
  position : Position
  state : PState
  resources : List String
  waitingFor : Option String
  memoryAccess : Option MemoryAccess
deriving DecidableEq

/-- Embedding of `Connection` from `types.ts`.  Optional fields are `Option`s. -/
structure Connection where
  id : String
  «from» : String
  «to» : String
  type : IPCType
  state : CState
  capacity : Option Int
  currentLoad : Option Int
  memoryRegion : Option MemoryRegion
deriving DecidableEq

/-- Transfer direction tag from `types.ts`. -/
inductive TransferType where
  | produce
  | consume
deriving DecidableEq

/-- Embedding of `DataTransfer` from `types.ts`. -/
structure DataTransfer where
  id : String
  connectionId : String
  startTime : Int
  progress : Int
  size : Int
  type : TransferType
deriving DecidableEq

/-- The full mutable state of `ProcessCanvas`. -/
structure SimState where
  processes : List Process
  connections : List Connection
  transfers : List DataTransfer
deriving DecidableEq

/-- JS `v || d` for a possibly-undefined number: `undefined` and `0` are falsy. -/
def jsOrInt (v : Option Int) (d : Int) : Int :=
  match v with
  | some x => if x = 0 then d else x
  | none => d

/-- Pointwise update `processes.map(p => p.id === pid ? f(p) : p)`. -/
def updateProcess (ps : List Process) (pid : String) (f : Process → Process) : List Process :=
  ps.map fun p => if p.id = pid then f p else p

/-- The connection lookup shared by `sendData` and `consumeData`
(`ProcessCanvas.tsx` lines 243–247 and 453–457): directional match, or the
reverse direction when the connection is a pipe. -/
def findConnection (cs : List Connection) (fromId toId : String) : Option Connection :=
  cs.find? fun c =>
    decide ((c.«from» = fromId ∧ c.«to» = toId) ∨
      (c.type = IPCType.pipe ∧ c.«from» = toId ∧ c.«to» = fromId))

/-- Embedding of `connections.filter(c => c.state === "active")`. -/
def activeConnections (cs : List Connection) : List Connection :=
  cs.filter fun c => decide (c.state = CState.active)

/-- JS `Set.add`: append if not already present (insertion order preserved). -/
def insertUniq (l : List String) (x : String) : List String :=
  if x ∈ l then l else l ++ [x]

/-- Elements of the JS `Set` built by inserting `from` and `to` of every
active connection (`checkForDeadlocks`, lines 966–971). -/
def busyProcesses (cs : List Connection) : List String :=
  (activeConnections cs).foldl (fun acc c => insertUniq (insertUniq acc c.«from») c.«to») []

/-- The guard of `checkForDeadlocks` (lines 973–977): at least one active
connection, the busy set as large as the process population, and more than
one process. -/
def saturationDeadlock (ps : List Process) (cs : List Connection) : Bool :=
  decide (0 < (activeConnections cs).length) &&
  decide ((busyProcesses cs).length = ps.length) &&
  decide (1 < ps.length)

/-- Embedding of `checkForDeadlocks` (`ProcessCanvas.tsx` lines 964–1006): when the
saturation guard fires, mark every process `deadlocked` and every active
connection `deadlocked`; otherwise change nothing. -/
def checkForDeadlocks (ps : List Process) (cs : List Connection) :
    List Process × List Connection :=
  if saturationDeadlock ps cs then
    (ps.map fun p => { p with state := PState.deadlocked },
     cs.map fun c =>
       { c with state := if c.state = CState.active then CState.deadlocked else c.state })
  else (ps, cs)

/-- Apply `checkForDeadlocks` to a `SimState` (transfers untouched). -/
def applyDeadlockCheck (s : SimState) : SimState :=
  let r := checkForDeadlocks s.processes s.connections
  { s with processes := r.1, connections := r.2 }

/-- Shared shape of the four semaphore mutations: apply `f` to the semaphore
of every connection whose `memoryRegion` has the given id (the code spells
this map out at each call site; the transform `f` is given there). -/
def updateRegion (cs : List Connection) (regionId : String) (f : Semaphore → Semaphore) :
    List Connection :=
  cs.map fun c =>
    match c.memoryRegion with
    | some rc =>
      if rc.id = regionId then
        { c with memoryRegion := some { rc with semaphore := f rc.semaphore } }
      else c
    | none => c

/-- Outcome of a `sendData` call. -/
inductive SendResult where
  | noConnection
  | queueFull
  | transientBlock
  | memoryLocked
  | sent
deriving DecidableEq

/-- The common success tail of `sendData` (lines 343–378): mark the sender
running with a new resource handle, append a `produce` transfer, and set the
connection active with `currentLoad` incremented. -/
def sendSuccess (s : SimState) (connection : Connection)
    (fromProcessId resourceId transferId : String) (startTime size : Int) : SimState :=
  let ps2 := updateProcess s.processes fromProcessId
      (fun p => { p with state := PState.running, resources := p.resources ++ [resourceId] })
  let newTransfer : DataTransfer :=
      { id := transferId, connectionId := connection.id, startTime := startTime,
        progress := 0, size := size, type := TransferType.produce }
  let cs4 := s.connections.map (fun c =>
      if c.id = connection.id then
        { c with state := CState.active, currentLoad := some (jsOrInt c.currentLoad 0 + 1) }
      else c)
  { processes := ps2, connections := cs4, transfers := s.transfers ++ [newTransfer] }

/-- Embedding of `sendData` (`ProcessCanvas.tsx` lines 239–447), producer-side acquisition.
`randBlocked` is the injected outcome of the `Math.random() < 0.2` draw;
`resourceId`, `transferId`, `startTime`, `size` are the environment-supplied
fresh values.  The trailing `checkForDeadlocks()` call (line 446) is reached
only on the success path. -/
def sendData (s : SimState) (fromProcessId toProcessId : String) (randBlocked : Bool)
    (resourceId transferId : String) (startTime size : Int) : SimState × SendResult :=
  match findConnection s.connections fromProcessId toProcessId with
  | none => (s, SendResult.noConnection)
  | some connection =>
    if connection.type = IPCType.queue ∧
        jsOrInt connection.capacity 10 ≤ jsOrInt connection.currentLoad 0 then
      (s, SendResult.queueFull)
    else if connection.type = IPCType.queue ∧ randBlocked = true then
      let psB := updateProcess s.processes fromProcessId
          (fun p => { p with state := PState.blocked })
      ({ s with processes := psB }, SendResult.transientBlock)
    else
      match connection.type, connection.memoryRegion with
      | IPCType.memory, some region =>
        if region.semaphore.hasWriter = true ∨ 0 < region.semaphore.currentReaders then
          let psB := updateProcess s.processes fromProcessId
              (fun p => { p with state := PState.blocked, waitingFor := some region.id })
          ({ s with processes := psB }, SendResult.memoryLocked)
        else
          let cs1 := updateRegion s.connections region.id
              (fun sem => { sem with hasWriter := true })
          let s1 := { s with connections := cs1 }
          (applyDeadlockCheck
            (sendSuccess s1 connection fromProcessId resourceId transferId startTime size),
           SendResult.sent)
      | _, _ =>
        (applyDeadlockCheck
          (sendSuccess s connection fromProcessId resourceId transferId startTime size),
         SendResult.sent)

/-- The waiter re-examination at the end of both release callbacks
(lines 429–443 and 667–682): if some process is blocked waiting on the
region, wake every process whose `waitingFor` is that region. -/
def wakeWaiters (ps : List Process) (regionId : String) : List Process :=
  if 0 < (ps.filter fun p =>
      decide (p.state = PState.blocked ∧ p.waitingFor = some regionId)).length then
    ps.map (fun p =>
      if p.waitingFor = some regionId then
        { p with state := PState.idle, waitingFor := none }
      else p)
  else ps

/-- The delayed release scheduled by `sendData` (lines 387–444): clear the
writer flag on every connection referencing the region (memory only), return
the sender to idle dropping the resource handle and `memoryAccess`, then wake
blocked waiters of the region (memory only). -/
def sendRelease (s : SimState) (connection : Connection)
    (fromProcessId resourceId : String) : SimState :=
  let cs1 :=
    match connection.type, connection.memoryRegion with
    | IPCType.memory, some region =>
      updateRegion s.connections region.id (fun sem => { sem with hasWriter := false })
    | _, _ => s.connections
  let s1 := { s with connections := cs1 }
  let ps2 := updateProcess s1.processes fromProcessId
      (fun p =>
        { p with
          state := PState.idle
          resources := p.resources.filter (fun r => decide (r ≠ resourceId))
          memoryAccess := none })
  let s2 := { s1 with processes := ps2 }
  match connection.type, connection.memoryRegion with
  | IPCType.memory, some region => { s2 with processes := wakeWaiters s2.processes region.id }
  | _, _ => s2

/-- Outcome of a `consumeData` call. -/
inductive ConsumeResult where
  | noConnection
  | queueEmpty
  | memoryLocked
  | maxReadersReached
  | consumed
deriving DecidableEq

/-- The common success tail of `consumeData` (lines 578–614): mark the
consumer running with a new resource handle, append a `consume` transfer, and
set the connection active with `currentLoad` decremented (floor 0). -/
def consumeSuccess (s : SimState) (connection : Connection)
    (toProcessId resourceId transferId : String) (startTime size : Int) : SimState :=
  let ps2 := updateProcess s.processes toProcessId
      (fun p => { p with state := PState.running, resources := p.resources ++ [resourceId] })
  let newTransfer : DataTransfer :=
      { id := transferId, connectionId := connection.id, startTime := startTime,
        progress := 0, size := size, type := TransferType.consume }
  let cs4 := s.connections.map (fun c =>
      if c.id = connection.id then
        { c with state := CState.active,
                 currentLoad := some (max 0 (jsOrInt c.currentLoad 1 - 1)) }
      else c)
  { processes := ps2, connections := cs4, transfers := s.transfers ++ [newTransfer] }

/-- Embedding of `consumeData` (`ProcessCanvas.tsx` lines 449–684), consumer-side
acquisition.  `readResourceId` is the `read_mem_…` handle recorded on the
memory-read path (line 560); `resourceId` is the function-scope handle of the
common path (line 579). -/
def consumeData (s : SimState) (fromProcessId toProcessId : String)
    (readResourceId resourceId transferId : String) (startTime size : Int) :
    SimState × ConsumeResult :=
  match findConnection s.connections fromProcessId toProcessId with
  | none => (s, ConsumeResult.noConnection)
  | some connection =>
    if connection.type = IPCType.queue ∧ jsOrInt connection.currentLoad 0 = 0 then
      let psB := updateProcess s.processes toProcessId
          (fun p => { p with state := PState.blocked })
      ({ s with processes := psB }, ConsumeResult.queueEmpty)
    else
      match connection.type, connection.memoryRegion with
      | IPCType.memory, some region =>
        if region.semaphore.hasWriter = true then
          let psB := updateProcess s.processes toProcessId
              (fun p => { p with state := PState.blocked, waitingFor := some region.id })
          ({ s with processes := psB }, ConsumeResult.memoryLocked)
        else if region.semaphore.maxReaders ≤ region.semaphore.currentReaders then
          (s, ConsumeResult.maxReadersReached)
        else
          let cs1 := updateRegion s.connections region.id
              (fun sem => { sem with currentReaders := sem.currentReaders + 1 })
          let s1 := { s with connections := cs1 }
          let psR := updateProcess s1.processes toProcessId
              (fun p =>
                { p with
                  state := PState.running
                  resources := p.resources ++ [readResourceId]
                  memoryAccess := some { type := MemoryAccessType.read, regionId := region.id } })
          let s2 := { s1 with processes := psR }
          (consumeSuccess s2 connection toProcessId resourceId transferId startTime size,
           ConsumeResult.consumed)
      | _, _ =>
        (consumeSuccess s connection toProcessId resourceId transferId startTime size,
         ConsumeResult.consumed)

/-- The delayed release scheduled by `consumeData` (lines 623–683): decrement
the reader count (floor 0) on every connection referencing the region (memory
only), return the consumer to idle dropping the common resource handle and
`memoryAccess`, then wake blocked waiters of the region (memory only). -/
def consumeRelease (s : SimState) (connection : Connection)
    (toProcessId resourceId : String) : SimState :=
  let cs1 :=
    match connection.type, connection.memoryRegion with
    | IPCType.memory, some region =>
      updateRegion s.connections region.id
        (fun sem => { sem with currentReaders := max 0 (sem.currentReaders - 1) })
    | _, _ => s.connections
  let s1 := { s with connections := cs1 }
  let ps2 := updateProcess s1.processes toProcessId
      (fun p =>
        { p with
          state := PState.idle
          resources := p.resources.filter (fun r => decide (r ≠ resourceId))
          memoryAccess := none })
  let s2 := { s1 with processes := ps2 }
  match connection.type, connection.memoryRegion with
  | IPCType.memory, some region => { s2 with processes := wakeWaiters s2.processes region.id }
  | _, _ => s2

/-- One tick of the transfer-progress interval (`ProcessCanvas.tsx`
lines 916–962): advance every in-flight transfer by 10, drop completed ones,
and decrement (floor 0) the `currentLoad` of the connection owning each
completed transfer. -/
def transferTick (s : SimState) : SimState :=
  let completed := s.transfers.filter fun t => decide (100 ≤ t.progress)
  let updated := (s.transfers.map fun t =>
      if 100 ≤ t.progress then t else { t with progress := t.progress + 10 }).filter
      fun t => decide (t.progress < 100)
  let cs := completed.foldl (fun acc t =>
      match acc.find? (fun c => decide (c.id = t.connectionId)) with
      | some connection => acc.map (fun c =>
          if c.id = connection.id then
            { c with currentLoad := some (max 0 (jsOrInt c.currentLoad 0 - 1)) }
          else c)
      | none => acc) s.connections
  { s with transfers := updated, connections := cs }

/-- The connection-creation mode held in component state. -/
structure ConnectMode where
  active : Bool
  fromProcess : Option String
  type : IPCType
deriving DecidableEq

/-- Outcome of a `completeConnection` call. -/
inductive ConnectResult where
  | ignored
  | memReuse
  | duplicate
  | created
deriving DecidableEq

/-- Embedding of `completeConnection` (`ProcessCanvas.tsx` lines 99–197).  Memory
connections first look for any existing memory connection carrying a region
and, when found, join that region unconditionally; otherwise a duplicate check
rejects when the same directed pair is already connected (any type) or the
reverse pair is connected by a pipe.  `newConnId` and `newRegionId` are the
environment-supplied fresh ids. -/
def completeConnection (mode : ConnectMode) (toProcessId : String)
    (cs : List Connection) (newConnId newRegionId : String) :
    List Connection × ConnectResult :=
  match mode.fromProcess with
  | none => (cs, ConnectResult.ignored)
  | some fromId =>
    if mode.active = false ∨ fromId = toProcessId then (cs, ConnectResult.ignored)
    else
      match (if mode.type = IPCType.memory then
          cs.find? fun c => decide (c.type = IPCType.memory ∧ c.memoryRegion ≠ none)
        else none) with
      | some existing =>
        (cs ++ [{ id := newConnId, «from» := fromId, «to» := toProcessId,
                  type := IPCType.memory, state := CState.idle, capacity := none,
                  currentLoad := none, memoryRegion := existing.memoryRegion }],
         ConnectResult.memReuse)
      | none =>
        if cs.any (fun c => decide ((c.«from» = fromId ∧ c.«to» = toProcessId) ∨
            (c.«from» = toProcessId ∧ c.«to» = fromId ∧ c.type = IPCType.pipe))) then
          (cs, ConnectResult.duplicate)
        else
          (cs ++ [{ id := newConnId, «from» := fromId, «to» := toProcessId,
                    type := mode.type, state := CState.idle,
                    capacity := if mode.type = IPCType.queue then some 10 else none,
                    currentLoad := some 0,
                    memoryRegion := if mode.type = IPCType.memory then
                        some { id := newRegionId,
                               semaphore :=
                                 { maxReaders := 5, currentReaders := 0, hasWriter := false } }
                      else none }],
           ConnectResult.created)

/-- A detected deadlock cycle (`deadlock-utils.ts`): the process ids around
the cycle (first repeated at the end) and the connection ids of its edges. -/
structure DeadlockCycle where
  processes : List String
  connections : List String
  resolved : Bool
deriving DecidableEq

/-- Adjacency of the dependency graph built by `detectDeadlockCycles`
(lines 43–48): the `to` endpoints of the active connections leaving `u`, in
connection order. -/
def adjOf (ac : List Connection) (u : String) : List String :=
  (ac.filter fun c => decide (c.«from» = u)).map (·.«to»)

/-- JS `Record`/`Set` key order: first occurrences, in insertion order. -/
def firstDedup (l : List String) : List String := l.foldl insertUniq []

/-- State of the iterative DFS of `detectDeadlockCycles`.  `finished` is
ghost instrumentation (the order nodes leave the recursion stack); the
algorithm never reads it. -/
structure DfsState where
  visited : List String
  stack : List String
  finished : List String
  cycles : List DeadlockCycle
deriving DecidableEq

/-- Embedding of `findCycles` (`deadlock-utils.ts` lines 54–96).  A node already on the
recursion stack closes a cycle: the emitted process list is the suffix of the
path from that node's first occurrence, closed with the node itself, and the
connection list is the corresponding suffix of the edge-id path.  The
`for (const neighbor of neighbors)` loop is the fold; it looks up the first
active connection realizing the edge and recurses when it exists.  The fuel
parameter makes the recursion structural; `detectDeadlockCycles` supplies
enough fuel that it is never exhausted (proved below). -/
def findCycles (ac : List Connection) :
    Nat → String → List String → List String → DfsState → DfsState
  | 0, _, _, _, st => st
  | fuel + 1, nodeId, path, connPath, st =>
    if nodeId ∈ st.stack then
      let cycleStartIndex := path.indexOf nodeId
      { st with cycles := st.cycles ++
          [{ processes := path.drop cycleStartIndex ++ [nodeId],
             connections := connPath.drop cycleStartIndex, resolved := false }] }
    else if nodeId ∈ st.visited then st
    else
      let st1 := { st with visited := st.visited ++ [nodeId], stack := st.stack ++ [nodeId] }
      let st2 := (adjOf ac nodeId).foldl
        (fun acc neighbor =>
          (ac.find? (fun c => decide (c.«from» = nodeId ∧ c.«to» = neighbor))).elim acc
            (fun conn =>
              findCycles ac fuel neighbor (path ++ [nodeId]) (connPath ++ [conn.id]) acc)) st1
      { st2 with stack := st2.stack.erase nodeId, finished := st2.finished ++ [nodeId] }

/-- The node set the DFS can ever touch: graph keys (process ids, then `from`
endpoints of active connections) and `to` endpoints of active connections. -/
def dfsKeys (ps : List Process) (cs : List Connection) : List String :=
  firstDedup (ps.map (·.id) ++ (activeConnections cs).map (·.«from»))

/-- Embedding of `detectDeadlockCycles` (`deadlock-utils.ts` lines 28–104): run the DFS
from every graph key over the active-connection dependency graph. -/
def detectDeadlockCycles (ps : List Process) (cs : List Connection) : List DeadlockCycle :=
  let ac := activeConnections cs
  let fuel := ps.length + 2 * cs.length + 1
  ((dfsKeys ps cs).foldl (fun st k => findCycles ac fuel k [] [] st)
    { visited := [], stack := [], finished := [], cycles := [] }).cycles



/-! ## Derived predicates, invariants and sample states -/

/-- Existence of an active connection from `u` to `v`. -/
def ActiveEdge (cs : List Connection) (u v : String) : Prop :=
  ∃ c ∈ activeConnections cs, c.«from» = u ∧ c.«to» = v

/-- Witnessed active-edge walk: for every index below the length of the
edge-id list `ws`, some active connection carries that id and joins the
corresponding consecutive nodes of `vs`. -/
def ChainWitness (cs : List Connection) (vs ws : List String) : Prop :=
  ∀ i, i < ws.length →
    ∃ c ∈ activeConnections cs, c.id = ws.getD i "" ∧
      c.«from» = vs.getD i "" ∧ c.«to» = vs.getD (i + 1) ""

/-- A list of nodes forming a directed cycle over active connections: at
least one edge, the first node repeated at the end, and every consecutive
pair joined by an active connection. -/
def IsCycleList (cs : List Connection) (vs : List String) : Prop :=
  2 ≤ vs.length ∧ vs.getD 0 "" = vs.getD (vs.length - 1) "" ∧
  ∀ i, i + 1 < vs.length → ActiveEdge cs (vs.getD i "") (vs.getD (i + 1) "")

/-- The active-connection graph of `cs` contains a directed cycle. -/
def HasCycle (cs : List Connection) : Prop :=
  ∃ vs, IsCycleList cs vs

/-- A `DeadlockCycle` record that traces a genuine cycle of the
active-connection graph: the process list is a closed walk with at least one
edge, and the connection list names, edge by edge, an active connection
realizing it. -/
def TracesCycle (cs : List Connection) (dc : DeadlockCycle) : Prop :=
  2 ≤ dc.processes.length ∧
  dc.connections.length + 1 = dc.processes.length ∧
  dc.processes.getD 0 "" = dc.processes.getD (dc.processes.length - 1) "" ∧
  ChainWitness cs dc.processes dc.connections

/-- Claimed queue invariant: every queue connection's effective load lies
between 0 and its effective capacity. -/
def QueueLoadInv (cs : List Connection) : Prop :=
  ∀ c ∈ cs, c.type = IPCType.queue →
    0 ≤ jsOrInt c.currentLoad 0 ∧ jsOrInt c.currentLoad 0 ≤ jsOrInt c.capacity 10

/-- Claimed semaphore invariant on every connection record carrying a memory
region: a writer excludes readers, and the reader count lies between 0 and
`maxReaders`. -/
def SemaphoreInv (cs : List Connection) : Prop :=
  ∀ c ∈ cs, ∀ r, c.memoryRegion = some r →
    (r.semaphore.hasWriter = true → r.semaphore.currentReaders = 0) ∧
    0 ≤ r.semaphore.currentReaders ∧
    r.semaphore.currentReaders ≤ r.semaphore.maxReaders

/-- Copies of the same region (same region id) carried by different
connection records agree on their semaphore; the code maintains this by
applying every semaphore mutation to all referencing records at once. -/
def RegionsAgree (cs : List Connection) : Prop :=
  ∀ c ∈ cs, ∀ c' ∈ cs, ∀ r r', c.memoryRegion = some r → c'.memoryRegion = some r' →
    r.id = r'.id → r.semaphore = r'.semaphore

/-- Well-formedness: every connection record has a distinct id (the store
issues unique identifiers). -/
def ConnIdsNodup (cs : List Connection) : Prop := (cs.map (·.id)).Nodup

/-- Modelled from the spec: the duplicate condition exactly as claim C7 words
it — an equivalent connection is one with the same directed pair and the same
type or, for pipe requests, a pipe in the reverse direction.  Defined only to
compare the claim against `completeConnection`. -/
def specClaimedDuplicate (fromId toId : String) (ty : IPCType) (cs : List Connection) : Prop :=
  (∃ c ∈ cs, c.«from» = fromId ∧ c.«to» = toId ∧ c.type = ty) ∨
  (ty = IPCType.pipe ∧ ∃ c ∈ cs, c.«from» = toId ∧ c.«to» = fromId ∧ c.type = IPCType.pipe)

/-- The rejection condition `completeConnection` actually tests
(lines 138–144): same directed pair of any type, or a pipe in the reverse
direction regardless of the requested type. -/
def codeDuplicate (fromId toId : String) (cs : List Connection) : Prop :=
  ∃ c ∈ cs, (c.«from» = fromId ∧ c.«to» = toId) ∨
    (c.«from» = toId ∧ c.«to» = fromId ∧ c.type = IPCType.pipe)

/-- Memory-region reuse applies: the requested type is `memory` and some
existing memory connection carries a region (lines 112–136). -/
def memReuseApplies (ty : IPCType) (cs : List Connection) : Prop :=
  ty = IPCType.memory ∧ ∃ c ∈ cs, c.type = IPCType.memory ∧ c.memoryRegion ≠ none

/-- Sample idle process used in concrete scenarios. -/
def sampleProcess (i : String) : Process :=
  { id := i, name := i, position := { x := 0, y := 0 }, state := PState.idle,
    resources := [], waitingFor := none, memoryAccess := none }

/-- Sample active memory connection carrying a fresh region, as produced by
`completeConnection` for the first memory connection and then activated. -/
def activeMemConn (i f t rid : String) : Connection :=
  { id := i, «from» := f, «to» := t, type := IPCType.memory, state := CState.active,
    capacity := none, currentLoad := some 0,
    memoryRegion := some
      { id := rid, semaphore := { maxReaders := 5, currentReaders := 0, hasWriter := false } } }

/-- Sample regionless memory connection as created by
`createDeadlockDemoSimulation` (lines 815–843): type `memory` with no
`memoryRegion` field, `currentLoad: 0`. -/
def demoMemConn (i f t : String) : Connection :=
  { id := i, «from» := f, «to» := t, type := IPCType.memory, state := CState.idle,
    capacity := none, currentLoad := some 0, memoryRegion := none }

/-- The three-process circular state built by `createDeadlockDemoSimulation`. -/
def deadlockDemoState : SimState :=
  { processes := [sampleProcess "A", sampleProcess "B", sampleProcess "C"],
    connections := [demoMemConn "c1" "A" "B", demoMemConn "c2" "B" "C",
      demoMemConn "c3" "C" "A"],
    transfers := [] }

/-- Queue scenario of claim C6: a capacity-5 queue from `a` to `b`, plus an
idle bystander process (so the saturation alarm stays quiet). -/
def queueDemoState : SimState :=
  { processes := [sampleProcess "a", sampleProcess "b", sampleProcess "c"],
    connections := [{ id := "q", «from» := "a", «to» := "b", type := IPCType.queue,
                      state := CState.idle, capacity := some 5, currentLoad := some 0,
                      memoryRegion := none }],
    transfers := [] }

/-- Iterated sends from `a` to `b` with the transient-block draw disabled. -/
def iterateSend : Nat → SimState → SimState
  | 0, s => s
  | n + 1, s => iterateSend n (sendData s "a" "b" false "r" "t" 0 1).1

/-- Memory connection whose region `R` currently has a writer. -/
def lockedMemConn : Connection :=
  { id := "m", «from» := "a", «to» := "b", type := IPCType.memory, state := CState.idle,
    capacity := none, currentLoad := some 0,
    memoryRegion := some
      { id := "R", semaphore := { maxReaders := 5, currentReaders := 0, hasWriter := true } } }

/-- State with a stale waiter: process `x` records `waitingFor = "R"` but is
`running`, not `blocked`, so the release's wake guard finds no blocked
waiter. -/
def staleWaiterState : SimState :=
  { processes := [sampleProcess "a",
      { id := "x", name := "x", position := { x := 0, y := 0 }, state := PState.running,
        resources := [], waitingFor := some "R", memoryAccess := none }],
    connections := [lockedMemConn], transfers := [] }

/-- Scenario of claims C1/C2: processes A, B, C with three active memory
connections forming the directed cycle A→B→C→A. -/
def memoryCycleState : SimState :=
  { processes := [sampleProcess "A", sampleProcess "B", sampleProcess "C"],
    connections := [activeMemConn "m1" "A" "B" "R1", activeMemConn "m2" "B" "C" "R2",
      activeMemConn "m3" "C" "A" "R3"],
    transfers := [] }

/-- The same circular memory state with process `B` stored first, so the DFS
scan reaches `B` before `A`. -/
def memoryCycleStateB : SimState :=
  { processes := [sampleProcess "B", sampleProcess "A", sampleProcess "C"],
    connections := [activeMemConn "m1" "A" "B" "R1", activeMemConn "m2" "B" "C" "R2",
      activeMemConn "m3" "C" "A" "R3"],
    transfers := [] }

/-- State with a genuinely blocked waiter `y` on region `R`. -/
def blockedWaiterState : SimState :=
  { processes := [sampleProcess "a",
      { id := "y", name := "y", position := { x := 0, y := 0 }, state := PState.blocked,
        resources := [], waitingFor := some "R", memoryAccess := none }],
    connections := [lockedMemConn], transfers := [] }

/-! ## Infrastructure for the deadlock-DFS proofs -/

/-- Node universe the DFS of `detectDeadlockCycles` can touch: process ids
and both endpoints of active connections. -/
def allNodes (ps : List Process) (cs : List Connection) : List String :=
  firstDedup (ps.map (·.id) ++ (activeConnections cs).map (·.«from») ++
    (activeConnections cs).map (·.«to»))

/-- Number of universe nodes not yet visited; it bounds the remaining DFS
recursion depth. -/
def unvisitedCount (ns : List String) (st : DfsState) : Nat :=
  (ns.filter fun x => decide (x ∉ st.visited)).length

/-- Structural invariant of the DFS state: `visited` is exactly
`finished ∪ stack`, the two are disjoint, and both are duplicate-free. -/
def DfsStateOK (st : DfsState) : Prop :=
  (∀ x, x ∈ st.visited ↔ x ∈ st.finished ∨ x ∈ st.stack) ∧
  (∀ x ∈ st.finished, x ∉ st.stack) ∧ st.finished.Nodup ∧ st.stack.Nodup

/-- As long as no cycle has been emitted, every neighbour of a finished node
is itself finished strictly earlier: the reversed finish order is a
topological order of the active-connection graph. -/
def FinishOrderInv (cs : List Connection) (st : DfsState) : Prop :=
  st.cycles = [] → ∀ u ∈ st.finished, ∀ v ∈ adjOf (activeConnections cs) u,
    v ∈ st.finished ∧ st.finished.indexOf v < st.finished.indexOf u

/-- Every emitted cycle record traces a genuine cycle. -/
def CyclesOK (cs : List Connection) (st : DfsState) : Prop :=
  ∀ dc ∈ st.cycles, TracesCycle cs dc

/-- Relation between the DFS state and the `path`/`connPath` arguments of a
`findCycles` call: the stack holds exactly the nodes of `path`, `path` is
duplicate-free, and `connPath` witnesses an active-edge walk along
`path ++ [u]`. -/
def PathOK (cs : List Connection) (u : String) (path connPath : List String)
    (st : DfsState) : Prop :=
  (∀ x, x ∈ st.stack ↔ x ∈ path) ∧ path.Nodup ∧ connPath.length = path.length ∧
  ChainWitness cs (path ++ [u]) connPath

/-- Conclusions of the master DFS lemma about one `findCycles` call: the
visited, finished and cycles lists only grow (by appending), the stack is
restored, everything visited lies in the universe `ns`, the invariants are
maintained, and if no new cycle was emitted the argument node ends up
finished. -/
def FindCyclesConcl (cs : List Connection) (ns : List String) (u : String)
    (st st' : DfsState) : Prop :=
  st.visited <+: st'.visited ∧ st.finished <+: st'.finished ∧
  st.cycles <+: st'.cycles ∧ st'.stack = st.stack ∧
  (∀ x ∈ st'.visited, x ∈ ns) ∧ DfsStateOK st' ∧ FinishOrderInv cs st' ∧
  CyclesOK cs st' ∧ (st'.cycles = st.cycles → u ∈ st'.finished)

/-- Conclusions of the master DFS lemma about the neighbour fold of one
`findCycles` call: monotone growth, stack restored, universe containment,
invariants maintained, and — when no new cycle was emitted — every processed
neighbour finished. -/
def FindCyclesFoldConcl (cs : List Connection) (ns : List String) (l : List String)
    (st st' : DfsState) : Prop :=
  st.visited <+: st'.visited ∧ st.finished <+: st'.finished ∧
  st.cycles <+: st'.cycles ∧ st'.stack = st.stack ∧
  (∀ x ∈ st'.visited, x ∈ ns) ∧ DfsStateOK st' ∧ FinishOrderInv cs st' ∧
  CyclesOK cs st' ∧ (st'.cycles = st.cycles → ∀ nb ∈ l, nb ∈ st'.finished)


/-! ## Helper lemmas -/

theorem jsOrInt_some_zero (v : Int) : jsOrInt (some v) 0 = v := by
  by_cases h : v = 0 <;> simp [jsOrInt, h]

theorem jsOrInt_nonneg (v : Option Int) (d : Int) (hd : 0 ≤ d)
    (hv : ∀ x, v = some x → 0 ≤ x) : 0 ≤ jsOrInt v d := by
  cases v with
  | none => simpa [jsOrInt] using hd
  | some x =>
    have hx := hv x rfl
    by_cases h : x = 0 <;> simp [jsOrInt, h] <;> omega

theorem findConnection_mem {cs : List Connection} {f t : String} {c : Connection}
    (h : findConnection cs f t = some c) : c ∈ cs :=
  List.mem_of_find?_eq_some h

/-! ## Claim C6: queue-full semantics -/

/-- Claim C6: for the queue connection matched by a `send`, the call fails
with `QueueFull` exactly when the effective load has reached the effective
capacity, and such a failure leaves the entire state untouched; concretely,
on a capacity-5 queue five successful sends raise `currentLoad` to 5 and a
sixth send fails with `QueueFull` leaving it at 5. -/
theorem c6_queue_full :
    (∀ (s : SimState) (f t : String) (blk : Bool) (rid tid : String) (st sz : Int)
      (c : Connection), findConnection s.connections f t = some c →
      c.type = IPCType.queue →
      (((sendData s f t blk rid tid st sz).2 = SendResult.queueFull ↔
         jsOrInt c.capacity 10 ≤ jsOrInt c.currentLoad 0) ∧
       ((sendData s f t blk rid tid st sz).2 = SendResult.queueFull →
         (sendData s f t blk rid tid st sz).1 = s))) ∧
    (iterateSend 5 queueDemoState).connections.map (·.currentLoad) = [some 5] ∧
    (sendData (iterateSend 5 queueDemoState) "a" "b" false "r" "t" 0 1).2 =
      SendResult.queueFull ∧
    (sendData (iterateSend 5 queueDemoState) "a" "b" false "r" "t" 0 1).1 =
      iterateSend 5 queueDemoState := by
  refine ⟨?_, by decide, by decide, by decide⟩
  intro s f t blk rid tid st sz c hc hq
  unfold sendData
  rw [hc]
  by_cases hfull : jsOrInt c.capacity 10 ≤ jsOrInt c.currentLoad 0
  · simp [hq, hfull]
  · by_cases hblk : blk = true
    · simp [hq, hfull, hblk]
    · cases hm : c.memoryRegion <;> simp [hq, hfull, hblk, hm]

/-- Witness for C6 at a concrete full queue. -/
theorem c6_queue_full_witness :
    (sendData ⟨[sampleProcess "a", sampleProcess "b"],
        [⟨"q", "a", "b", IPCType.queue, CState.idle, some 5, some 5, none⟩], []⟩
      "a" "b" false "r" "t" 0 1).2 = SendResult.queueFull := by
  have h := (c6_queue_full.1 ⟨[sampleProcess "a", sampleProcess "b"],
      [⟨"q", "a", "b", IPCType.queue, CState.idle, some 5, some 5, none⟩], []⟩
    "a" "b" false "r" "t" 0 1
    ⟨"q", "a", "b", IPCType.queue, CState.idle, some 5, some 5, none⟩
    (by decide) rfl).1
  exact h.mpr (by decide)


/-! ## Case analyses of the two acquisition operations -/

/-- Exhaustive case analysis of `sendData`: the call lands in exactly one of
the no-connection, queue-full, transient-block, memory-locked or success
branches, with the exact resulting state in each case. -/
theorem sendData_spec (s : SimState) (f t : String) (blk : Bool) (rid tid : String)
    (st sz : Int) :
    (findConnection s.connections f t = none ∧
      sendData s f t blk rid tid st sz = (s, SendResult.noConnection)) ∨
    (∃ c, findConnection s.connections f t = some c ∧
      ((c.type = IPCType.queue ∧ jsOrInt c.capacity 10 ≤ jsOrInt c.currentLoad 0 ∧
          sendData s f t blk rid tid st sz = (s, SendResult.queueFull)) ∨
       (c.type = IPCType.queue ∧ ¬ jsOrInt c.capacity 10 ≤ jsOrInt c.currentLoad 0 ∧
          blk = true ∧
          sendData s f t blk rid tid st sz =
            ({ s with processes := (updateProcess s.processes f
                (fun p => { p with state := PState.blocked })) }, SendResult.transientBlock)) ∨
       (∃ r, c.type = IPCType.memory ∧ c.memoryRegion = some r ∧
          (r.semaphore.hasWriter = true ∨ 0 < r.semaphore.currentReaders) ∧
          sendData s f t blk rid tid st sz =
            ({ s with processes := (updateProcess s.processes f
                (fun p => { p with state := PState.blocked, waitingFor := some r.id })) },
             SendResult.memoryLocked)) ∨
       (∃ r, c.type = IPCType.memory ∧ c.memoryRegion = some r ∧
          ¬ (r.semaphore.hasWriter = true ∨ 0 < r.semaphore.currentReaders) ∧
          sendData s f t blk rid tid st sz =
            (applyDeadlockCheck (sendSuccess
              { s with connections := (updateRegion s.connections r.id
                  (fun sem => { sem with hasWriter := true })) } c f rid tid st sz),
             SendResult.sent)) ∨
       ((c.type = IPCType.queue →
            ¬ jsOrInt c.capacity 10 ≤ jsOrInt c.currentLoad 0 ∧ blk = false) ∧
          (c.type = IPCType.memory → c.memoryRegion = none) ∧
          sendData s f t blk rid tid st sz =
            (applyDeadlockCheck (sendSuccess s c f rid tid st sz), SendResult.sent)))) := by
  rcases hfc : findConnection s.connections f t with _ | c
  · exact Or.inl ⟨rfl, by simp [sendData, hfc]⟩
  · refine Or.inr ⟨c, rfl, ?_⟩
    rcases hty : c.type
    · -- pipe
      refine Or.inr (Or.inr (Or.inr (Or.inr ⟨by simp, by simp, ?_⟩)))
      cases hm : c.memoryRegion <;> simp [sendData, hfc, hty, hm]
    · -- queue
      by_cases hfull : jsOrInt c.capacity 10 ≤ jsOrInt c.currentLoad 0
      · exact Or.inl ⟨rfl, hfull, by simp [sendData, hfc, hty, hfull]⟩
      · by_cases hblk : blk = true
        · exact Or.inr (Or.inl ⟨rfl, hfull, hblk,
            by simp [sendData, hfc, hty, hfull, hblk]⟩)
        · refine Or.inr (Or.inr (Or.inr (Or.inr
            ⟨fun _ => ⟨hfull, by simpa using hblk⟩, by simp, ?_⟩)))
          cases hm : c.memoryRegion <;>
            simp [sendData, hfc, hty, hfull, hblk, hm]
    · -- memory
      rcases hm : c.memoryRegion with _ | r
      · refine Or.inr (Or.inr (Or.inr (Or.inr ⟨by simp, fun _ => rfl, ?_⟩)))
        simp [sendData, hfc, hty, hm]
      · by_cases hlock : r.semaphore.hasWriter = true ∨ 0 < r.semaphore.currentReaders
        · exact Or.inr (Or.inr (Or.inl ⟨r, rfl, rfl, hlock,
            by simp [sendData, hfc, hty, hm, hlock]⟩))
        · exact Or.inr (Or.inr (Or.inr (Or.inl ⟨r, rfl, rfl, hlock,
            by simp [sendData, hfc, hty, hm, hlock]⟩)))

/-- Exhaustive case analysis of `consumeData`, analogous to `sendData_spec`. -/
theorem consumeData_spec (s : SimState) (f t : String) (rr rid tid : String)
    (st sz : Int) :
    (findConnection s.connections f t = none ∧
      consumeData s f t rr rid tid st sz = (s, ConsumeResult.noConnection)) ∨
    (∃ c, findConnection s.connections f t = some c ∧
      ((c.type = IPCType.queue ∧ jsOrInt c.currentLoad 0 = 0 ∧
          consumeData s f t rr rid tid st sz =
            ({ s with processes := (updateProcess s.processes t
                (fun p => { p with state := PState.blocked })) }, ConsumeResult.queueEmpty)) ∨
       (∃ r, c.type = IPCType.memory ∧ c.memoryRegion = some r ∧
          r.semaphore.hasWriter = true ∧
          consumeData s f t rr rid tid st sz =
            ({ s with processes := (updateProcess s.processes t
                (fun p => { p with state := PState.blocked, waitingFor := some r.id })) },
             ConsumeResult.memoryLocked)) ∨
       (∃ r, c.type = IPCType.memory ∧ c.memoryRegion = some r ∧
          ¬ r.semaphore.hasWriter = true ∧
          r.semaphore.maxReaders ≤ r.semaphore.currentReaders ∧
          consumeData s f t rr rid tid st sz = (s, ConsumeResult.maxReadersReached)) ∨
       (∃ r, c.type = IPCType.memory ∧ c.memoryRegion = some r ∧
          ¬ r.semaphore.hasWriter = true ∧
          ¬ r.semaphore.maxReaders ≤ r.semaphore.currentReaders ∧
          consumeData s f t rr rid tid st sz =
            (consumeSuccess
              { s with
                connections := (updateRegion s.connections r.id
                  (fun sem => { sem with currentReaders := sem.currentReaders + 1 })),
                processes := (updateProcess s.processes t
                  (fun p =>
                    { p with
                      state := PState.running
                      resources := p.resources ++ [rr]
                      memoryAccess := some
                        { type := MemoryAccessType.read, regionId := r.id } })) }
              c t rid tid st sz, ConsumeResult.consumed)) ∨
       ((c.type = IPCType.queue → ¬ jsOrInt c.currentLoad 0 = 0) ∧
          (c.type = IPCType.memory → c.memoryRegion = none) ∧
          consumeData s f t rr rid tid st sz =
            (consumeSuccess s c t rid tid st sz, ConsumeResult.consumed)))) := by
  rcases hfc : findConnection s.connections f t with _ | c
  · exact Or.inl ⟨rfl, by simp [consumeData, hfc]⟩
  · refine Or.inr ⟨c, rfl, ?_⟩
    rcases hty : c.type
    · -- pipe
      refine Or.inr (Or.inr (Or.inr (Or.inr ⟨by simp, by simp, ?_⟩)))
      cases hm : c.memoryRegion <;> simp [consumeData, hfc, hty, hm]
    · -- queue
      by_cases hempty : jsOrInt c.currentLoad 0 = 0
      · exact Or.inl ⟨rfl, hempty, by simp [consumeData, hfc, hty, hempty]⟩
      · refine Or.inr (Or.inr (Or.inr (Or.inr ⟨fun _ => hempty, by simp, ?_⟩)))
        cases hm : c.memoryRegion <;> simp [consumeData, hfc, hty, hempty, hm]
    · -- memory
      rcases hm : c.memoryRegion with _ | r
      · refine Or.inr (Or.inr (Or.inr (Or.inr ⟨by simp, fun _ => rfl, ?_⟩)))
        simp [consumeData, hfc, hty, hm]
      · by_cases hw : r.semaphore.hasWriter = true
        · exact Or.inr (Or.inl ⟨r, rfl, rfl, hw,
            by simp [consumeData, hfc, hty, hm, hw]⟩)
        · by_cases hmax : r.semaphore.maxReaders ≤ r.semaphore.currentReaders
          · exact Or.inr (Or.inr (Or.inl ⟨r, rfl, rfl, hw, hmax,
              by simp [consumeData, hfc, hty, hm, hw, hmax]⟩))
          · exact Or.inr (Or.inr (Or.inr (Or.inl ⟨r, rfl, rfl, hw, hmax,
              by simp [consumeData, hfc, hty, hm, hw, hmax]⟩)))


/-! ## Claim C3: what failure paths mutate -/

theorem updateProcess_id (ps : List Process) (pid : String) :
    updateProcess ps pid (fun p => p) = ps := by
  simp [updateProcess]

/-- Counterexample to claim C3 as stated: a `consume` on an empty queue fails
with `QueueEmpty`, yet the state is mutated — the consumer is marked
blocked. -/
theorem c3_partial_mutation_counterexample :
    (consumeData queueDemoState "a" "b" "rr" "r2" "t2" 0 1).2 = ConsumeResult.queueEmpty ∧
    (consumeData queueDemoState "a" "b" "rr" "r2" "t2" 0 1).1 ≠ queueDemoState := by
  decide

/-- Claim C3, amended: a failed acquisition never touches connections or
in-flight transfers, and the only process mutation it may perform is a
blocking mark on the requesting process — every process record keeps its id,
name, position, resources and memoryAccess, and records of other processes
are untouched (`QueueFull`, `MaxReadersReached` and missing-connection
failures change nothing at all, the proof exhibiting `g = id` there). -/
theorem c3_failure_mutation :
    (∀ (s : SimState) (f t : String) (blk : Bool) (rid tid : String) (st sz : Int),
      (sendData s f t blk rid tid st sz).2 ≠ SendResult.sent →
      (sendData s f t blk rid tid st sz).1.connections = s.connections ∧
      (sendData s f t blk rid tid st sz).1.transfers = s.transfers ∧
      ∃ g : Process → Process,
        (∀ p, (g p).id = p.id ∧ (g p).name = p.name ∧ (g p).position = p.position ∧
          (g p).resources = p.resources ∧ (g p).memoryAccess = p.memoryAccess) ∧
        (sendData s f t blk rid tid st sz).1.processes = updateProcess s.processes f g) ∧
    (∀ (s : SimState) (f t : String) (rr rid tid : String) (st sz : Int),
      (consumeData s f t rr rid tid st sz).2 ≠ ConsumeResult.consumed →
      (consumeData s f t rr rid tid st sz).1.connections = s.connections ∧
      (consumeData s f t rr rid tid st sz).1.transfers = s.transfers ∧
      ∃ g : Process → Process,
        (∀ p, (g p).id = p.id ∧ (g p).name = p.name ∧ (g p).position = p.position ∧
          (g p).resources = p.resources ∧ (g p).memoryAccess = p.memoryAccess) ∧
        (consumeData s f t rr rid tid st sz).1.processes = updateProcess s.processes t g) := by
  constructor
  · intro s f t blk rid tid st sz hfail
    rcases sendData_spec s f t blk rid tid st sz with ⟨hfc, heq⟩ | ⟨c, hfc, hcase⟩
    · rw [heq]
      exact ⟨rfl, rfl, fun p => p, fun p => ⟨rfl, rfl, rfl, rfl, rfl⟩,
        (updateProcess_id _ _).symm⟩
    · rcases hcase with ⟨_, _, heq⟩ | ⟨_, _, _, heq⟩ | ⟨r, _, _, _, heq⟩ |
        ⟨r, _, _, _, heq⟩ | ⟨_, _, heq⟩
      · rw [heq]
        exact ⟨rfl, rfl, fun p => p, fun p => ⟨rfl, rfl, rfl, rfl, rfl⟩,
          (updateProcess_id _ _).symm⟩
      · rw [heq]
        exact ⟨rfl, rfl, fun p => { p with state := PState.blocked },
          fun p => ⟨rfl, rfl, rfl, rfl, rfl⟩, rfl⟩
      · rw [heq]
        exact ⟨rfl, rfl, fun p => { p with state := PState.blocked, waitingFor := some r.id },
          fun p => ⟨rfl, rfl, rfl, rfl, rfl⟩, rfl⟩
      · exact absurd (by rw [heq]) hfail
      · exact absurd (by rw [heq]) hfail
  · intro s f t rr rid tid st sz hfail
    rcases consumeData_spec s f t rr rid tid st sz with ⟨hfc, heq⟩ | ⟨c, hfc, hcase⟩
    · rw [heq]
      exact ⟨rfl, rfl, fun p => p, fun p => ⟨rfl, rfl, rfl, rfl, rfl⟩,
        (updateProcess_id _ _).symm⟩
    · rcases hcase with ⟨_, _, heq⟩ | ⟨r, _, _, _, heq⟩ | ⟨r, _, _, _, _, heq⟩ |
        ⟨r, _, _, _, _, heq⟩ | ⟨_, _, heq⟩
      · rw [heq]
        exact ⟨rfl, rfl, fun p => { p with state := PState.blocked },
          fun p => ⟨rfl, rfl, rfl, rfl, rfl⟩, rfl⟩
      · rw [heq]
        exact ⟨rfl, rfl, fun p => { p with state := PState.blocked, waitingFor := some r.id },
          fun p => ⟨rfl, rfl, rfl, rfl, rfl⟩, rfl⟩
      · rw [heq]
        exact ⟨rfl, rfl, fun p => p, fun p => ⟨rfl, rfl, rfl, rfl, rfl⟩,
          (updateProcess_id _ _).symm⟩
      · exact absurd (by rw [heq]) hfail
      · exact absurd (by rw [heq]) hfail

/-- Witness for the amended C3 at a concrete empty-queue consume failure. -/
theorem c3_failure_mutation_witness :
    (consumeData queueDemoState "a" "b" "rr" "r2" "t2" 0 1).1.connections =
      queueDemoState.connections ∧
    (consumeData queueDemoState "a" "b" "rr" "r2" "t2" 0 1).1.transfers =
      queueDemoState.transfers :=
  ⟨(c3_failure_mutation.2 queueDemoState "a" "b" "rr" "r2" "t2" 0 1 (by decide)).1,
   (c3_failure_mutation.2 queueDemoState "a" "b" "rr" "r2" "t2" 0 1 (by decide)).2.1⟩


/-! ## Claim C4: queue load invariant -/

theorem queueLoadInv_map (cs : List Connection) (g : Connection → Connection)
    (h : ∀ c ∈ cs, (g c).type = c.type ∧ (g c).currentLoad = c.currentLoad ∧
      (g c).capacity = c.capacity)
    (hq : QueueLoadInv cs) : QueueLoadInv (cs.map g) := by
  intro c' hc' hty
  rcases List.mem_map.1 hc' with ⟨c, hc, rfl⟩
  rcases h c hc with ⟨h1, h2, h3⟩
  rw [h1] at hty
  rw [h2, h3]
  exact hq c hc hty

theorem updateRegion_fields (cs : List Connection) (rid : String)
    (f : Semaphore → Semaphore) :
    ∀ c' ∈ updateRegion cs rid f, ∃ c ∈ cs,
      c'.id = c.id ∧ c'.«from» = c.«from» ∧ c'.«to» = c.«to» ∧ c'.type = c.type ∧
      c'.state = c.state ∧ c'.capacity = c.capacity ∧ c'.currentLoad = c.currentLoad := by
  intro c' hc'
  rcases List.mem_map.1 hc' with ⟨c, hc, rfl⟩
  refine ⟨c, hc, ?_⟩
  split
  · split
    · exact ⟨rfl, rfl, rfl, rfl, rfl, rfl, rfl⟩
    · exact ⟨rfl, rfl, rfl, rfl, rfl, rfl, rfl⟩
  · exact ⟨rfl, rfl, rfl, rfl, rfl, rfl, rfl⟩

theorem queueLoadInv_updateRegion (cs : List Connection) (rid : String)
    (f : Semaphore → Semaphore) (hq : QueueLoadInv cs) :
    QueueLoadInv (updateRegion cs rid f) := by
  unfold updateRegion
  apply queueLoadInv_map
  · intro c hc
    split
    · split
      · exact ⟨rfl, rfl, rfl⟩
      · exact ⟨rfl, rfl, rfl⟩
    · exact ⟨rfl, rfl, rfl⟩
  · exact hq

theorem connIds_updateRegion (cs : List Connection) (rid : String)
    (f : Semaphore → Semaphore) :
    (updateRegion cs rid f).map (·.id) = cs.map (·.id) := by
  unfold updateRegion
  rw [List.map_map]
  apply List.map_congr_left
  intro c _
  simp only [Function.comp]
  split
  · split
    · rfl
    · rfl
  · rfl

theorem queueLoadInv_checkForDeadlocks (ps : List Process) (cs : List Connection)
    (hq : QueueLoadInv cs) : QueueLoadInv (checkForDeadlocks ps cs).2 := by
  unfold checkForDeadlocks
  split
  · exact queueLoadInv_map _ _ (fun c _ => ⟨rfl, rfl, rfl⟩) hq
  · exact hq

theorem queueLoadInv_applyDeadlockCheck (s : SimState)
    (hq : QueueLoadInv s.connections) : QueueLoadInv (applyDeadlockCheck s).connections :=
  queueLoadInv_checkForDeadlocks s.processes s.connections hq

theorem queueLoadInv_sendSuccess (s : SimState) (c : Connection)
    (f rid tid : String) (st sz : Int) (hq : QueueLoadInv s.connections)
    (hok : ∀ c' ∈ s.connections, c'.id = c.id → c'.type = IPCType.queue →
      jsOrInt c'.currentLoad 0 < jsOrInt c'.capacity 10) :
    QueueLoadInv (sendSuccess s c f rid tid st sz).connections := by
  intro c'' hc'' hty
  simp only [sendSuccess] at hc''
  rcases List.mem_map.1 hc'' with ⟨c', hc', rfl⟩
  by_cases hid : c'.id = c.id
  · rw [if_pos hid] at hty ⊢
    have hty' : c'.type = IPCType.queue := hty
    have hlt := hok c' hc' hid hty'
    have h0 := (hq c' hc' hty').1
    show 0 ≤ jsOrInt (some (jsOrInt c'.currentLoad 0 + 1)) 0 ∧
      jsOrInt (some (jsOrInt c'.currentLoad 0 + 1)) 0 ≤ jsOrInt c'.capacity 10
    rw [jsOrInt_some_zero]
    omega
  · rw [if_neg hid] at hty ⊢
    exact hq c' hc' hty

theorem queueLoadInv_consumeSuccess (s : SimState) (c : Connection)
    (t rid tid : String) (st sz : Int) (hq : QueueLoadInv s.connections) :
    QueueLoadInv (consumeSuccess s c t rid tid st sz).connections := by
  intro c'' hc'' hty
  simp only [consumeSuccess] at hc''
  rcases List.mem_map.1 hc'' with ⟨c', hc', rfl⟩
  by_cases hid : c'.id = c.id
  · rw [if_pos hid] at hty ⊢
    have hty' : c'.type = IPCType.queue := hty
    have hh := hq c' hc' hty'
    show 0 ≤ jsOrInt (some (max 0 (jsOrInt c'.currentLoad 1 - 1))) 0 ∧
      jsOrInt (some (max 0 (jsOrInt c'.currentLoad 1 - 1))) 0 ≤ jsOrInt c'.capacity 10
    rw [jsOrInt_some_zero]
    have hbound : jsOrInt c'.currentLoad 1 - 1 ≤ jsOrInt c'.capacity 10 ∧
        0 ≤ jsOrInt c'.capacity 10 := by
      rcases hl : c'.currentLoad with _ | x
      · rw [hl] at hh
        simp only [jsOrInt] at hh ⊢
        omega
      · rw [hl] at hh
        simp only [jsOrInt] at hh ⊢
        constructor
        · split at hh <;> split <;> omega
        · split at hh <;> omega
    constructor
    · exact le_max_left 0 _
    · omega
  · rw [if_neg hid] at hty ⊢
    exact hq c' hc' hty

theorem queueLoadInv_tickFold (ts : List DataTransfer) :
    ∀ cs : List Connection, QueueLoadInv cs →
    QueueLoadInv (ts.foldl (fun acc t =>
      match acc.find? (fun c => decide (c.id = t.connectionId)) with
      | some connection => acc.map (fun c =>
          if c.id = connection.id then
            { c with currentLoad := some (max 0 (jsOrInt c.currentLoad 0 - 1)) }
          else c)
      | none => acc) cs) := by
  induction ts with
  | nil => exact fun cs h => h
  | cons t ts ih =>
    intro cs h
    rw [List.foldl_cons]
    apply ih
    cases hf : cs.find? (fun c => decide (c.id = t.connectionId)) with
    | none => simpa [hf] using h
    | some conn =>
      simp only [hf]
      intro c'' hc'' hty
      rcases List.mem_map.1 hc'' with ⟨c', hc', rfl⟩
      by_cases hid : c'.id = conn.id
      · rw [if_pos hid] at hty ⊢
        have hty' : c'.type = IPCType.queue := hty
        have hh := h c' hc' hty'
        show 0 ≤ jsOrInt (some (max 0 (jsOrInt c'.currentLoad 0 - 1))) 0 ∧
          jsOrInt (some (max 0 (jsOrInt c'.currentLoad 0 - 1))) 0 ≤ jsOrInt c'.capacity 10
        rw [jsOrInt_some_zero]
        constructor
        · exact le_max_left 0 _
        · have := hh.1
          have := hh.2
          omega
      · rw [if_neg hid] at hty ⊢
        exact h c' hc' hty

theorem queueLoadInv_transferTick (s : SimState) (hq : QueueLoadInv s.connections) :
    QueueLoadInv (transferTick s).connections := by
  unfold transferTick
  exact queueLoadInv_tickFold _ _ hq


/-- Claim C4: assuming the queue invariant and unique connection ids, every
operation — send, consume, and the transfer-completion tick — preserves
`0 ≤ currentLoad ≤ capacity` on all queue connections: send never pushes a
load beyond capacity, and the two decrements floor at 0. -/
theorem c4_queue_load_invariant (s : SimState)
    (hq : QueueLoadInv s.connections) (hids : ConnIdsNodup s.connections) :
    (∀ (f t : String) (blk : Bool) (rid tid : String) (st sz : Int),
      QueueLoadInv (sendData s f t blk rid tid st sz).1.connections) ∧
    (∀ (f t rr rid tid : String) (st sz : Int),
      QueueLoadInv (consumeData s f t rr rid tid st sz).1.connections) ∧
    QueueLoadInv (transferTick s).connections := by
  refine ⟨?_, ?_, queueLoadInv_transferTick s hq⟩
  · intro f t blk rid tid st sz
    rcases sendData_spec s f t blk rid tid st sz with ⟨_, heq⟩ | ⟨c, hfc, hcase⟩
    · rw [heq]; exact hq
    · have hcmem := findConnection_mem hfc
      rcases hcase with ⟨_, _, heq⟩ | ⟨_, _, _, heq⟩ | ⟨r, _, _, _, heq⟩ |
        ⟨r, hty, hm, _, heq⟩ | ⟨hcond, _, heq⟩
      · rw [heq]; exact hq
      · rw [heq]; exact hq
      · rw [heq]; exact hq
      · rw [heq]
        apply queueLoadInv_applyDeadlockCheck
        apply queueLoadInv_sendSuccess
        · show QueueLoadInv (updateRegion s.connections r.id
            (fun sem => { sem with hasWriter := true }))
          exact queueLoadInv_updateRegion _ _ _ hq
        · intro c' hc' hid hqueue
          have hc2 : c' ∈ updateRegion s.connections r.id
              (fun sem => { sem with hasWriter := true }) := hc'
          rcases updateRegion_fields _ _ _ c' hc2 with
            ⟨c0, hc0, hid0, _, _, hty0, _, _, _⟩
          have hcc : c0 = c :=
            List.inj_on_of_nodup_map hids hc0 hcmem (by rw [← hid0, hid])
          rw [hty0, hcc, hty] at hqueue
          simp at hqueue
      · rw [heq]
        apply queueLoadInv_applyDeadlockCheck
        apply queueLoadInv_sendSuccess _ _ _ _ _ _ _ hq
        intro c' hc' hid hqueue
        have hcc : c' = c := List.inj_on_of_nodup_map hids hc' hcmem hid
        rw [hcc] at hqueue ⊢
        have := (hcond hqueue).1
        omega
  · intro f t rr rid tid st sz
    rcases consumeData_spec s f t rr rid tid st sz with ⟨_, heq⟩ | ⟨c, hfc, hcase⟩
    · rw [heq]; exact hq
    · rcases hcase with ⟨_, _, heq⟩ | ⟨r, _, _, _, heq⟩ | ⟨r, _, _, _, _, heq⟩ |
        ⟨r, _, _, _, _, heq⟩ | ⟨_, _, heq⟩
      · rw [heq]; exact hq
      · rw [heq]; exact hq
      · rw [heq]; exact hq
      · rw [heq]
        apply queueLoadInv_consumeSuccess
        show QueueLoadInv (updateRegion s.connections r.id
          (fun sem => { sem with currentReaders := sem.currentReaders + 1 }))
        exact queueLoadInv_updateRegion _ _ _ hq
      · rw [heq]
        exact queueLoadInv_consumeSuccess _ _ _ _ _ _ _ hq

/-- Witness for C4 at the concrete queue scenario state. -/
theorem c4_queue_load_invariant_witness :
    QueueLoadInv (transferTick queueDemoState).connections :=
  (c4_queue_load_invariant queueDemoState (by unfold QueueLoadInv; decide)
    (by unfold ConnIdsNodup; decide)).2.2


/-! ## Claim C10: regionless memory connections behave like pipes -/

theorem proj_map_eq {α β : Type} (l : List α) (g : α → α) (proj : α → β)
    (h : ∀ a ∈ l, proj (g a) = proj a) : (l.map g).map proj = l.map proj := by
  rw [List.map_map]
  exact List.map_congr_left h

theorem applyDeadlockCheck_memoryRegion (s : SimState) :
    (applyDeadlockCheck s).connections.map (·.memoryRegion) =
      s.connections.map (·.memoryRegion) := by
  simp only [applyDeadlockCheck, checkForDeadlocks]
  split
  · exact proj_map_eq _ _ _ (fun c _ => rfl)
  · rfl

theorem applyDeadlockCheck_waitingFor (s : SimState) :
    (applyDeadlockCheck s).processes.map (·.waitingFor) =
      s.processes.map (·.waitingFor) := by
  simp only [applyDeadlockCheck, checkForDeadlocks]
  split
  · exact proj_map_eq _ _ _ (fun p _ => rfl)
  · rfl

theorem applyDeadlockCheck_blocked (s : SimState) :
    ∀ p' ∈ (applyDeadlockCheck s).processes, p'.state = PState.blocked →
      ∃ p ∈ s.processes, p.id = p'.id ∧ p.state = PState.blocked := by
  simp only [applyDeadlockCheck, checkForDeadlocks]
  split
  · intro p' hp' hb
    rcases List.mem_map.1 hp' with ⟨p, hp, rfl⟩
    simp at hb
  · intro p' hp' hb
    exact ⟨p', hp', rfl, hb⟩

theorem sendSuccess_memoryRegion (s : SimState) (c : Connection)
    (f rid tid : String) (st sz : Int) :
    (sendSuccess s c f rid tid st sz).connections.map (·.memoryRegion) =
      s.connections.map (·.memoryRegion) := by
  simp only [sendSuccess]
  apply proj_map_eq
  intro a _
  split <;> rfl

theorem sendSuccess_waitingFor (s : SimState) (c : Connection)
    (f rid tid : String) (st sz : Int) :
    (sendSuccess s c f rid tid st sz).processes.map (·.waitingFor) =
      s.processes.map (·.waitingFor) := by
  simp only [sendSuccess, updateProcess]
  apply proj_map_eq
  intro a _
  split <;> rfl

theorem sendSuccess_blocked (s : SimState) (c : Connection)
    (f rid tid : String) (st sz : Int) :
    ∀ p' ∈ (sendSuccess s c f rid tid st sz).processes, p'.state = PState.blocked →
      ∃ p ∈ s.processes, p.id = p'.id ∧ p.state = PState.blocked := by
  simp only [sendSuccess, updateProcess]
  intro p' hp' hb
  rcases List.mem_map.1 hp' with ⟨p, hp, rfl⟩
  by_cases h : p.id = f
  · rw [if_pos h] at hb
    simp at hb
  · rw [if_neg h] at hb ⊢
    exact ⟨p, hp, rfl, hb⟩

theorem consumeSuccess_memoryRegion (s : SimState) (c : Connection)
    (t rid tid : String) (st sz : Int) :
    (consumeSuccess s c t rid tid st sz).connections.map (·.memoryRegion) =
      s.connections.map (·.memoryRegion) := by
  simp only [consumeSuccess]
  apply proj_map_eq
  intro a _
  split <;> rfl

theorem consumeSuccess_waitingFor (s : SimState) (c : Connection)
    (t rid tid : String) (st sz : Int) :
    (consumeSuccess s c t rid tid st sz).processes.map (·.waitingFor) =
      s.processes.map (·.waitingFor) := by
  simp only [consumeSuccess, updateProcess]
  apply proj_map_eq
  intro a _
  split <;> rfl

theorem consumeSuccess_memoryAccess (s : SimState) (c : Connection)
    (t rid tid : String) (st sz : Int) :
    (consumeSuccess s c t rid tid st sz).processes.map (·.memoryAccess) =
      s.processes.map (·.memoryAccess) := by
  simp only [consumeSuccess, updateProcess]
  apply proj_map_eq
  intro a _
  split <;> rfl

theorem consumeSuccess_blocked (s : SimState) (c : Connection)
    (t rid tid : String) (st sz : Int) :
    ∀ p' ∈ (consumeSuccess s c t rid tid st sz).processes, p'.state = PState.blocked →
      ∃ p ∈ s.processes, p.id = p'.id ∧ p.state = PState.blocked := by
  simp only [consumeSuccess, updateProcess]
  intro p' hp' hb
  rcases List.mem_map.1 hp' with ⟨p, hp, rfl⟩
  by_cases h : p.id = t
  · rw [if_pos h] at hb
    simp at hb
  · rw [if_neg h] at hb ⊢
    exact ⟨p, hp, rfl, hb⟩

/-- Claim C10: over a memory connection carrying no region record (as created
by the deadlock demo), `sendData` and `consumeData` skip the reader/writer
protocol entirely: the operation always succeeds like a pipe, no
`memoryRegion` field of any connection changes, no process acquires a
`waitingFor` or a `memoryAccess` through the call, and no process is moved to
`blocked`. -/
theorem c10_regionless_memory :
    (∀ (s : SimState) (f t : String) (blk : Bool) (rid tid : String) (st sz : Int)
        (c : Connection),
      findConnection s.connections f t = some c → c.type = IPCType.memory →
      c.memoryRegion = none →
      (sendData s f t blk rid tid st sz).2 = SendResult.sent ∧
      (sendData s f t blk rid tid st sz).1.connections.map (·.memoryRegion) =
        s.connections.map (·.memoryRegion) ∧
      (sendData s f t blk rid tid st sz).1.processes.map (·.waitingFor) =
        s.processes.map (·.waitingFor) ∧
      (∀ p' ∈ (sendData s f t blk rid tid st sz).1.processes,
        p'.state = PState.blocked →
        ∃ p ∈ s.processes, p.id = p'.id ∧ p.state = PState.blocked)) ∧
    (∀ (s : SimState) (f t rr rid tid : String) (st sz : Int) (c : Connection),
      findConnection s.connections f t = some c → c.type = IPCType.memory →
      c.memoryRegion = none →
      (consumeData s f t rr rid tid st sz).2 = ConsumeResult.consumed ∧
      (consumeData s f t rr rid tid st sz).1.connections.map (·.memoryRegion) =
        s.connections.map (·.memoryRegion) ∧
      (consumeData s f t rr rid tid st sz).1.processes.map (·.waitingFor) =
        s.processes.map (·.waitingFor) ∧
      (consumeData s f t rr rid tid st sz).1.processes.map (·.memoryAccess) =
        s.processes.map (·.memoryAccess) ∧
      (∀ p' ∈ (consumeData s f t rr rid tid st sz).1.processes,
        p'.state = PState.blocked →
        ∃ p ∈ s.processes, p.id = p'.id ∧ p.state = PState.blocked)) := by
  constructor
  · intro s f t blk rid tid st sz c hfc hty hm
    rcases sendData_spec s f t blk rid tid st sz with ⟨hn, _⟩ | ⟨c', hfc', hcase⟩
    · rw [hfc] at hn
      exact absurd hn (by simp)
    · rw [hfc] at hfc'
      cases hfc'
      rcases hcase with ⟨hq, _, _⟩ | ⟨hq, _, _, _⟩ | ⟨r, _, hr, _, _⟩ |
        ⟨r, _, hr, _, _⟩ | ⟨_, _, heq⟩
      · rw [hty] at hq
        exact absurd hq (by simp)
      · rw [hty] at hq
        exact absurd hq (by simp)
      · rw [hm] at hr
        exact absurd hr (by simp)
      · rw [hm] at hr
        exact absurd hr (by simp)
      · rw [heq]
        refine ⟨rfl, ?_, ?_, ?_⟩
        · exact (applyDeadlockCheck_memoryRegion _).trans
            (sendSuccess_memoryRegion s c f rid tid st sz)
        · exact (applyDeadlockCheck_waitingFor _).trans
            (sendSuccess_waitingFor s c f rid tid st sz)
        · intro p' hp' hb
          rcases applyDeadlockCheck_blocked _ p' hp' hb with ⟨p2, hp2, hid2, hb2⟩
          rcases sendSuccess_blocked s c f rid tid st sz p2 hp2 hb2 with
            ⟨p, hp, hid, hbp⟩
          exact ⟨p, hp, hid.trans hid2, hbp⟩
  · intro s f t rr rid tid st sz c hfc hty hm
    rcases consumeData_spec s f t rr rid tid st sz with ⟨hn, _⟩ | ⟨c', hfc', hcase⟩
    · rw [hfc] at hn
      exact absurd hn (by simp)
    · rw [hfc] at hfc'
      cases hfc'
      rcases hcase with ⟨hq, _, _⟩ | ⟨r, _, hr, _, _⟩ | ⟨r, _, hr, _, _, _⟩ |
        ⟨r, _, hr, _, _, _⟩ | ⟨_, _, heq⟩
      · rw [hty] at hq
        exact absurd hq (by simp)
      · rw [hm] at hr
        exact absurd hr (by simp)
      · rw [hm] at hr
        exact absurd hr (by simp)
      · rw [hm] at hr
        exact absurd hr (by simp)
      · rw [heq]
        exact ⟨rfl, consumeSuccess_memoryRegion s c t rid tid st sz,
          consumeSuccess_waitingFor s c t rid tid st sz,
          consumeSuccess_memoryAccess s c t rid tid st sz,
          consumeSuccess_blocked s c t rid tid st sz⟩

/-- Witness for C10 on the deadlock-demo state: a send over the regionless
memory connection from A to B succeeds even with the writer semaphore absent. -/
theorem c10_regionless_memory_witness :
    (sendData deadlockDemoState "A" "B" true "r" "t" 0 1).2 = SendResult.sent :=
  (c10_regionless_memory.1 deadlockDemoState "A" "B" true "r" "t" 0 1
    (demoMemConn "c1" "A" "B") (by decide) rfl rfl).1


/-! ## Claim C7: duplicate-connection rejection -/

/-- Counterexample to claim C7 as stated: with only a queue connection from
`a` to `b` in the store, a request for a pipe from `a` to `b` is rejected as
a duplicate, although no connection with the same directed pair and same type
exists and no reverse pipe exists. -/
theorem c7_duplicate_counterexample :
    (completeConnection ⟨true, some "a", IPCType.pipe⟩ "b"
      [⟨"q", "a", "b", IPCType.queue, CState.idle, some 10, some 0, none⟩] "n" "g").2 =
      ConnectResult.duplicate ∧
    (completeConnection ⟨true, some "a", IPCType.pipe⟩ "b"
      [⟨"q", "a", "b", IPCType.queue, CState.idle, some 10, some 0, none⟩] "n" "g").1 =
      [⟨"q", "a", "b", IPCType.queue, CState.idle, some 10, some 0, none⟩] ∧
    ¬ specClaimedDuplicate "a" "b" IPCType.pipe
      [⟨"q", "a", "b", IPCType.queue, CState.idle, some 10, some 0, none⟩] := by
  refine ⟨by decide, by decide, ?_⟩
  unfold specClaimedDuplicate
  decide

/-- Claim C7, amended: `completeConnection` rejects with `DuplicateConnection`
exactly when memory-region reuse does not apply (the requested type is
`memory` and some memory connection already carries a region) and a
connection with the same directed pair — of any type — already exists, or a
pipe exists in the reverse direction, regardless of the requested type; on
rejection no connection is added, and when memory reuse applies the request
always succeeds by joining the existing region. -/
theorem c7_duplicate_rejection (mode : ConnectMode) (toId : String)
    (cs : List Connection) (nid gid : String) (f : String)
    (hact : mode.active = true) (hfp : mode.fromProcess = some f) (hne : f ≠ toId) :
    ((completeConnection mode toId cs nid gid).2 = ConnectResult.duplicate ↔
      (¬ memReuseApplies mode.type cs ∧ codeDuplicate f toId cs)) ∧
    ((completeConnection mode toId cs nid gid).2 = ConnectResult.duplicate →
      (completeConnection mode toId cs nid gid).1 = cs) ∧
    (memReuseApplies mode.type cs →
      (completeConnection mode toId cs nid gid).2 = ConnectResult.memReuse) := by
  have hTrue : ¬ (mode.active = false ∨ f = toId) := by
    rw [hact]
    simp [hne]
  simp only [completeConnection, hfp]
  rw [if_neg hTrue]
  by_cases hmem : mode.type = IPCType.memory
  · rw [if_pos hmem]
    cases hf : cs.find? (fun c => decide (c.type = IPCType.memory ∧ c.memoryRegion ≠ none)) with
    | some existing =>
      have hex : memReuseApplies mode.type cs := by
        refine ⟨hmem, existing, List.mem_of_find?_eq_some hf, ?_⟩
        have hp := List.find?_some hf
        simpa using hp
      refine ⟨?_, ?_, fun _ => rfl⟩
      · constructor
        · intro h
          simp at h
        · rintro ⟨hno, _⟩
          exact absurd hex hno
      · intro h
        simp at h
    | none =>
      have hnoreuse : ¬ memReuseApplies mode.type cs := by
        rintro ⟨_, c, hc, hprop⟩
        have := List.find?_eq_none.1 hf c hc
        simp [hprop.1, hprop.2] at this
      by_cases hdup : cs.any (fun c => decide ((c.«from» = f ∧ c.«to» = toId) ∨
          (c.«from» = toId ∧ c.«to» = f ∧ c.type = IPCType.pipe))) = true
      · rw [if_pos hdup]
        have hcode : codeDuplicate f toId cs := by
          rcases List.any_eq_true.1 hdup with ⟨c, hc, hp⟩
          exact ⟨c, hc, by simpa using hp⟩
        exact ⟨⟨fun _ => ⟨hnoreuse, hcode⟩, fun _ => rfl⟩, fun _ => rfl,
          fun hr => absurd hr hnoreuse⟩
      · rw [if_neg hdup]
        have hnocode : ¬ codeDuplicate f toId cs := by
          rintro ⟨c, hc, hp⟩
          exact hdup (List.any_eq_true.2 ⟨c, hc, by simpa using hp⟩)
        refine ⟨?_, ?_, fun hr => absurd hr hnoreuse⟩
        · constructor
          · intro h
            simp at h
          · rintro ⟨_, hcode⟩
            exact absurd hcode hnocode
        · intro h
          simp at h
  · rw [if_neg hmem]
    have hnoreuse : ¬ memReuseApplies mode.type cs := fun hr => hmem hr.1
    by_cases hdup : cs.any (fun c => decide ((c.«from» = f ∧ c.«to» = toId) ∨
        (c.«from» = toId ∧ c.«to» = f ∧ c.type = IPCType.pipe))) = true
    · rw [if_pos hdup]
      have hcode : codeDuplicate f toId cs := by
        rcases List.any_eq_true.1 hdup with ⟨c, hc, hp⟩
        exact ⟨c, hc, by simpa using hp⟩
      exact ⟨⟨fun _ => ⟨hnoreuse, hcode⟩, fun _ => rfl⟩, fun _ => rfl,
        fun hr => absurd hr hnoreuse⟩
    · rw [if_neg hdup]
      have hnocode : ¬ codeDuplicate f toId cs := by
        rintro ⟨c, hc, hp⟩
        exact hdup (List.any_eq_true.2 ⟨c, hc, by simpa using hp⟩)
      refine ⟨?_, ?_, fun hr => absurd hr hnoreuse⟩
      · constructor
        · intro h
          simp at h
        · rintro ⟨_, hcode⟩
          exact absurd hcode hnocode
      · intro h
        simp at h

/-- Witness for the amended C7: the queue-blocks-pipe rejection satisfies the
characterization. -/
theorem c7_duplicate_rejection_witness :
    (completeConnection ⟨true, some "a", IPCType.pipe⟩ "b"
      [⟨"q", "a", "b", IPCType.queue, CState.idle, some 10, some 0, none⟩] "n" "g").1 =
      [⟨"q", "a", "b", IPCType.queue, CState.idle, some 10, some 0, none⟩] :=
  (c7_duplicate_rejection ⟨true, some "a", IPCType.pipe⟩ "b"
    [⟨"q", "a", "b", IPCType.queue, CState.idle, some 10, some 0, none⟩] "n" "g" "a"
    rfl rfl (by decide)).2.1 (by decide)


/-! ## Claim C9: release behaviour -/

/-- Counterexample to claim C9 as stated: a release of region `R` while the
only process recording `waitingFor = "R"` is not blocked wakes nobody — that
process keeps `waitingFor = "R"` and its state, although the claim requires
every process with `waitingFor = R` to become idle with `waitingFor` null. -/
theorem c9_wake_counterexample :
    (sendRelease staleWaiterState lockedMemConn "a" "r").processes.map (·.waitingFor) =
      [none, some "R"] ∧
    (sendRelease staleWaiterState lockedMemConn "a" "r").processes.map (·.state) =
      [PState.idle, PState.running] := by
  decide

/-- Claim C9, amended: a memory release clears the writer flag (send) or
decrements the reader count with floor 0 (consume) on every connection
referencing the region, returns the releasing process to idle with the
release handle removed and `memoryAccess` cleared, and then — only when at
least one process is blocked with `waitingFor` equal to the region id — sets
every process whose `waitingFor` equals the region id to idle with
`waitingFor` null; when no blocked waiter exists, the waiting flags are left
untouched. -/
theorem c9_release_behavior :
    (∀ (s : SimState) (c : Connection) (pid rid : String) (region : MemoryRegion),
      c.type = IPCType.memory → c.memoryRegion = some region →
      sendRelease s c pid rid =
        { s with
          connections := (updateRegion s.connections region.id
            (fun sem => { sem with hasWriter := false })),
          processes := (wakeWaiters (updateProcess s.processes pid
            (fun p =>
              { p with
                state := PState.idle
                resources := p.resources.filter (fun r => decide (r ≠ rid))
                memoryAccess := none })) region.id) }) ∧
    (∀ (s : SimState) (c : Connection) (pid rid : String) (region : MemoryRegion),
      c.type = IPCType.memory → c.memoryRegion = some region →
      consumeRelease s c pid rid =
        { s with
          connections := (updateRegion s.connections region.id
            (fun sem => { sem with currentReaders := max 0 (sem.currentReaders - 1) })),
          processes := (wakeWaiters (updateProcess s.processes pid
            (fun p =>
              { p with
                state := PState.idle
                resources := p.resources.filter (fun r => decide (r ≠ rid))
                memoryAccess := none })) region.id) }) ∧
    (∀ (ps : List Process) (ridd : String),
      ((∃ p ∈ ps, p.state = PState.blocked ∧ p.waitingFor = some ridd) →
        wakeWaiters ps ridd = ps.map (fun p =>
          if p.waitingFor = some ridd then
            { p with state := PState.idle, waitingFor := none }
          else p)) ∧
      (¬ (∃ p ∈ ps, p.state = PState.blocked ∧ p.waitingFor = some ridd) →
        wakeWaiters ps ridd = ps)) ∧
    (∀ (cs : List Connection) (ridd : String),
      ∀ c' ∈ updateRegion cs ridd (fun sem => { sem with hasWriter := false }),
      ∀ r', c'.memoryRegion = some r' → r'.id = ridd →
        r'.semaphore.hasWriter = false) := by
  refine ⟨?_, ?_, ?_, ?_⟩
  · intro s c pid rid region hty hm
    simp [sendRelease, hty, hm]
  · intro s c pid rid region hty hm
    simp [consumeRelease, hty, hm]
  · intro ps ridd
    constructor
    · intro hex
      unfold wakeWaiters
      rw [if_pos]
      rcases hex with ⟨p, hp, hb, hw⟩
      have : p ∈ ps.filter (fun p =>
          decide (p.state = PState.blocked ∧ p.waitingFor = some ridd)) :=
        List.mem_filter.2 ⟨hp, by simp [hb, hw]⟩
      exact List.length_pos.2 (List.ne_nil_of_mem this)
    · intro hnone
      unfold wakeWaiters
      rw [if_neg]
      intro hpos
      rcases List.exists_mem_of_length_pos hpos with ⟨p, hp⟩
      rcases List.mem_filter.1 hp with ⟨hmem, hprop⟩
      exact hnone ⟨p, hmem, by simpa using hprop⟩
  · intro cs ridd c' hc' r' hr' hid
    rcases List.mem_map.1 hc' with ⟨c0, _, rfl⟩
    revert hr'
    simp only
    split
    · split
      · intro hr'
        rw [Option.some_inj] at hr'
        rw [← hr']
      · intro hr'
        rename_i rc hrc hne
        rw [hrc] at hr'
        rw [Option.some_inj] at hr'
        rw [← hr'] at hid
        exact absurd hid hne
    · intro hr'
      rename_i hnone
      rw [hnone] at hr'
      exact absurd hr' (by simp)

/-- Witness for the amended C9 on a state with one genuinely blocked waiter. -/
theorem c9_release_behavior_witness :
    sendRelease blockedWaiterState lockedMemConn "a" "r" =
      { blockedWaiterState with
        connections := (updateRegion blockedWaiterState.connections "R"
          (fun sem => { sem with hasWriter := false })),
        processes := (wakeWaiters (updateProcess blockedWaiterState.processes "a"
          (fun p =>
            { p with
              state := PState.idle
              resources := p.resources.filter (fun r => decide (r ≠ "r"))
              memoryAccess := none })) "R") } :=
  c9_release_behavior.1 blockedWaiterState lockedMemConn "a" "r"
    { id := "R", semaphore := { maxReaders := 5, currentReaders := 0, hasWriter := true } }
    rfl rfl


/-! ## Claim C8: the saturation heuristic -/

theorem mem_insertUniq (l : List String) (x y : String) :
    y ∈ insertUniq l x ↔ y ∈ l ∨ y = x := by
  unfold insertUniq
  split
  · rename_i hx
    constructor
    · exact Or.inl
    · rintro (h | rfl)
      · exact h
      · exact hx
  · simp [List.mem_append]

theorem nodup_insertUniq (l : List String) (x : String) (h : l.Nodup) :
    (insertUniq l x).Nodup := by
  unfold insertUniq
  split
  · exact h
  · rename_i hx
    rw [List.nodup_append]
    refine ⟨h, List.nodup_singleton x, ?_⟩
    intro a ha hax
    rw [List.mem_singleton] at hax
    subst hax
    exact hx ha

theorem busy_foldl_mem (l : List Connection) :
    ∀ (acc : List String) (x : String),
      x ∈ l.foldl (fun a c => insertUniq (insertUniq a c.«from») c.«to») acc ↔
        x ∈ acc ∨ ∃ c ∈ l, x = c.«from» ∨ x = c.«to» := by
  induction l with
  | nil => simp
  | cons c l ih =>
    intro acc x
    rw [List.foldl_cons, ih, mem_insertUniq, mem_insertUniq,
      List.exists_mem_cons_iff]
    constructor
    · rintro ((((h | h) | h) | ⟨c', hc', h'⟩))
      · exact Or.inl h
      · exact Or.inr (Or.inl (Or.inl h))
      · exact Or.inr (Or.inl (Or.inr h))
      · exact Or.inr (Or.inr ⟨c', hc', h'⟩)
    · rintro ((h | ((h | h) | ⟨c', hc', h'⟩)))
      · exact Or.inl (Or.inl (Or.inl h))
      · exact Or.inl (Or.inl (Or.inr h))
      · exact Or.inl (Or.inr h)
      · exact Or.inr ⟨c', hc', h'⟩

theorem busy_foldl_nodup (l : List Connection) :
    ∀ acc : List String, acc.Nodup →
      (l.foldl (fun a c => insertUniq (insertUniq a c.«from») c.«to») acc).Nodup := by
  induction l with
  | nil => exact fun acc h => h
  | cons c l ih =>
    intro acc h
    rw [List.foldl_cons]
    exact ih _ (nodup_insertUniq _ _ (nodup_insertUniq _ _ h))

theorem mem_busyProcesses (cs : List Connection) (x : String) :
    x ∈ busyProcesses cs ↔
      ∃ c ∈ activeConnections cs, x = c.«from» ∨ x = c.«to» := by
  unfold busyProcesses
  rw [busy_foldl_mem]
  simp

theorem nodup_busyProcesses (cs : List Connection) : (busyProcesses cs).Nodup :=
  busy_foldl_nodup _ _ List.nodup_nil

/-- Claim C8: assuming process ids are unique and active connections only
reference existing processes, the saturation heuristic fires exactly when at
least one connection is active, more than one process exists, and the set of
processes appearing as an endpoint of some active connection is the entire
process population.  The characterization makes no reference to cycles: the
heuristic is independent of whether the active-connection graph is cyclic. -/
theorem c8_saturation (ps : List Process) (cs : List Connection)
    (hnd : (ps.map (·.id)).Nodup)
    (hend : ∀ c ∈ activeConnections cs,
      c.«from» ∈ ps.map (·.id) ∧ c.«to» ∈ ps.map (·.id)) :
    saturationDeadlock ps cs = true ↔
      (0 < (activeConnections cs).length ∧ 1 < ps.length ∧
        ∀ x, ((∃ c ∈ activeConnections cs, x = c.«from» ∨ x = c.«to») ↔
          x ∈ ps.map (·.id))) := by
  unfold saturationDeadlock
  simp only [Bool.and_eq_true, decide_eq_true_eq]
  constructor
  · rintro ⟨⟨h1, h2⟩, h3⟩
    refine ⟨h1, h3, ?_⟩
    have hsub : (busyProcesses cs).toFinset ⊆ (ps.map (·.id)).toFinset := by
      intro a ha
      rw [List.mem_toFinset] at ha ⊢
      rcases (mem_busyProcesses cs a).1 ha with ⟨c, hc, h | h⟩
      · exact h ▸ (hend c hc).1
      · exact h ▸ (hend c hc).2
    have hcards : (ps.map (·.id)).toFinset.card ≤ (busyProcesses cs).toFinset.card := by
      rw [List.toFinset_card_of_nodup hnd,
        List.toFinset_card_of_nodup (nodup_busyProcesses cs), h2, List.length_map]
    have hfe := Finset.eq_of_subset_of_card_le hsub hcards
    intro x
    rw [← mem_busyProcesses]
    constructor
    · intro hx
      have hx' : x ∈ (busyProcesses cs).toFinset := List.mem_toFinset.2 hx
      rw [hfe] at hx'
      exact List.mem_toFinset.1 hx'
    · intro hx
      have hx' : x ∈ (ps.map (·.id)).toFinset := List.mem_toFinset.2 hx
      rw [← hfe] at hx'
      exact List.mem_toFinset.1 hx'
  · rintro ⟨h1, h3, hset⟩
    refine ⟨⟨h1, ?_⟩, h3⟩
    have hfe : (busyProcesses cs).toFinset = (ps.map (·.id)).toFinset := by
      ext a
      rw [List.mem_toFinset, List.mem_toFinset, mem_busyProcesses]
      exact hset a
    have hlen := congrArg Finset.card hfe
    rw [List.toFinset_card_of_nodup (nodup_busyProcesses cs),
      List.toFinset_card_of_nodup hnd, List.length_map] at hlen
    exact hlen

/-- Witness for C8: the heuristic fires on a two-process acyclic state (one
active queue connection from `a` to `b`). -/
theorem c8_saturation_witness :
    saturationDeadlock [sampleProcess "a", sampleProcess "b"]
      [⟨"q", "a", "b", IPCType.queue, CState.active, some 5, some 0, none⟩] = true := by
  apply (c8_saturation _ _ (by decide) (by decide)).mpr
  refine ⟨by decide, by decide, ?_⟩
  intro x
  constructor
  · rintro ⟨c, hc, h⟩
    have hc' : c ∈ [(⟨"q", "a", "b", IPCType.queue, CState.active, some 5, some 0, none⟩ :
        Connection)] := hc
    rw [List.mem_singleton] at hc'
    subst hc'
    rcases h with rfl | rfl <;> decide
  · intro hx
    refine ⟨⟨"q", "a", "b", IPCType.queue, CState.active, some 5, some 0, none⟩,
      by decide, ?_⟩
    simp [sampleProcess] at hx
    rcases hx with rfl | rfl
    · exact Or.inl rfl
    · exact Or.inr rfl


/-! ## Claim C5: the reader/writer semaphore invariant -/

theorem semInv_map (cs : List Connection) (g : Connection → Connection)
    (h : ∀ c ∈ cs, (g c).memoryRegion = c.memoryRegion)
    (hs : SemaphoreInv cs) : SemaphoreInv (cs.map g) := by
  intro c' hc' r hr
  rcases List.mem_map.1 hc' with ⟨c, hc, rfl⟩
  rw [h c hc] at hr
  exact hs c hc r hr

theorem regionsAgree_map (cs : List Connection) (g : Connection → Connection)
    (h : ∀ c ∈ cs, (g c).memoryRegion = c.memoryRegion)
    (ha : RegionsAgree cs) : RegionsAgree (cs.map g) := by
  intro c' hc' c'' hc'' r r' hr hr' hid
  rcases List.mem_map.1 hc' with ⟨c0, hc0, rfl⟩
  rcases List.mem_map.1 hc'' with ⟨c1, hc1, rfl⟩
  rw [h c0 hc0] at hr
  rw [h c1 hc1] at hr'
  exact ha c0 hc0 c1 hc1 r r' hr hr' hid

theorem updateRegion_region (rid : String) (f : Semaphore → Semaphore)
    (c0 : Connection) :
    ((match c0.memoryRegion with
      | some rc =>
        if rc.id = rid then
          { c0 with memoryRegion := some { rc with semaphore := f rc.semaphore } }
        else c0
      | none => c0) : Connection).memoryRegion =
      (match c0.memoryRegion with
      | some rc =>
        some (if rc.id = rid then { rc with semaphore := f rc.semaphore } else rc)
      | none => none) := by
  rcases hm : c0.memoryRegion with _ | rc
  · simp [hm]
  · by_cases h : rc.id = rid <;> simp [h, hm]

theorem semInv_updateRegion (cs : List Connection) (rid : String)
    (f : Semaphore → Semaphore) (hs : SemaphoreInv cs)
    (hf : ∀ c ∈ cs, ∀ rc : MemoryRegion, c.memoryRegion = some rc → rc.id = rid →
      ((f rc.semaphore).hasWriter = true → (f rc.semaphore).currentReaders = 0) ∧
      0 ≤ (f rc.semaphore).currentReaders ∧
      (f rc.semaphore).currentReaders ≤ (f rc.semaphore).maxReaders) :
    SemaphoreInv (updateRegion cs rid f) := by
  intro c' hc' r hr
  rcases List.mem_map.1 hc' with ⟨c, hc, rfl⟩
  rw [updateRegion_region] at hr
  revert hr
  rcases hm : c.memoryRegion with _ | rc
  · intro hr
    exact absurd hr (by simp)
  · intro hr
    rw [Option.some_inj] at hr
    subst hr
    by_cases hid : rc.id = rid
    · rw [if_pos hid]
      exact hf c hc rc hm hid
    · rw [if_neg hid]
      exact hs c hc rc hm

theorem regionsAgree_updateRegion (cs : List Connection) (rid : String)
    (f : Semaphore → Semaphore) (ha : RegionsAgree cs) :
    RegionsAgree (updateRegion cs rid f) := by
  intro c' hc' c'' hc'' r r' hr hr' hid
  rcases List.mem_map.1 hc' with ⟨c0, hc0, rfl⟩
  rcases List.mem_map.1 hc'' with ⟨c1, hc1, rfl⟩
  rw [updateRegion_region] at hr hr'
  revert hr
  rcases hm0 : c0.memoryRegion with _ | rc0
  · intro hr
    exact absurd hr (by simp)
  · intro hr
    rw [Option.some_inj] at hr
    revert hr'
    rcases hm1 : c1.memoryRegion with _ | rc1
    · intro hr'
      exact absurd hr' (by simp)
    · intro hr'
      rw [Option.some_inj] at hr'
      subst hr
      subst hr'
      have hids : rc0.id = rc1.id := by
        by_cases h0 : rc0.id = rid <;> by_cases h1 : rc1.id = rid <;>
          simp [h0, h1] at hid <;> simp [h0, h1, hid]
      have hsem : rc0.semaphore = rc1.semaphore :=
        ha c0 hc0 c1 hc1 rc0 rc1 hm0 hm1 hids
      by_cases h0 : rc0.id = rid
      · rw [if_pos h0, if_pos (hids ▸ h0), hsem]
      · rw [if_neg h0, if_neg (hids ▸ h0), hsem]

theorem semInv_applyDeadlockCheck (s : SimState) (hs : SemaphoreInv s.connections) :
    SemaphoreInv (applyDeadlockCheck s).connections := by
  simp only [applyDeadlockCheck, checkForDeadlocks]
  split
  · exact semInv_map _ _ (fun c _ => rfl) hs
  · exact hs

theorem regionsAgree_applyDeadlockCheck (s : SimState)
    (ha : RegionsAgree s.connections) : RegionsAgree (applyDeadlockCheck s).connections := by
  simp only [applyDeadlockCheck, checkForDeadlocks]
  split
  · exact regionsAgree_map _ _ (fun c _ => rfl) ha
  · exact ha

theorem semInv_sendSuccess (s : SimState) (c : Connection)
    (f rid tid : String) (st sz : Int) (hs : SemaphoreInv s.connections) :
    SemaphoreInv (sendSuccess s c f rid tid st sz).connections := by
  simp only [sendSuccess]
  apply semInv_map _ _ ?_ hs
  intro a _
  split <;> rfl

theorem regionsAgree_sendSuccess (s : SimState) (c : Connection)
    (f rid tid : String) (st sz : Int) (ha : RegionsAgree s.connections) :
    RegionsAgree (sendSuccess s c f rid tid st sz).connections := by
  simp only [sendSuccess]
  apply regionsAgree_map _ _ ?_ ha
  intro a _
  split <;> rfl

theorem semInv_consumeSuccess (s : SimState) (c : Connection)
    (t rid tid : String) (st sz : Int) (hs : SemaphoreInv s.connections) :
    SemaphoreInv (consumeSuccess s c t rid tid st sz).connections := by
  simp only [consumeSuccess]
  apply semInv_map _ _ ?_ hs
  intro a _
  split <;> rfl

theorem regionsAgree_consumeSuccess (s : SimState) (c : Connection)
    (t rid tid : String) (st sz : Int) (ha : RegionsAgree s.connections) :
    RegionsAgree (consumeSuccess s c t rid tid st sz).connections := by
  simp only [consumeSuccess]
  apply regionsAgree_map _ _ ?_ ha
  intro a _
  split <;> rfl

theorem sendRelease_connections (s : SimState) (c : Connection) (pid rid : String) :
    (sendRelease s c pid rid).connections =
      (match c.type, c.memoryRegion with
      | IPCType.memory, some region =>
        updateRegion s.connections region.id (fun sem => { sem with hasWriter := false })
      | _, _ => s.connections) := by
  rcases hty : c.type <;> rcases hm : c.memoryRegion with _ | r <;>
    simp [sendRelease, hty, hm]

theorem consumeRelease_connections (s : SimState) (c : Connection) (pid rid : String) :
    (consumeRelease s c pid rid).connections =
      (match c.type, c.memoryRegion with
      | IPCType.memory, some region =>
        updateRegion s.connections region.id
          (fun sem => { sem with currentReaders := max 0 (sem.currentReaders - 1) })
      | _, _ => s.connections) := by
  rcases hty : c.type <;> rcases hm : c.memoryRegion with _ | r <;>
    simp [consumeRelease, hty, hm]

/-- Claim C5: assuming the semaphore invariant and agreement of all region
copies beforehand, every operation — write acquisition (`sendData`), read
acquisition (`consumeData`), write release and read release — maintains, on
every connection record referencing the region: a writer excludes readers,
the reader count stays in `[0, maxReaders]`, and all copies keep agreeing. -/
theorem c5_semaphore_invariant (s : SimState)
    (hs : SemaphoreInv s.connections) (ha : RegionsAgree s.connections) :
    (∀ (f t : String) (blk : Bool) (rid tid : String) (st sz : Int),
      SemaphoreInv (sendData s f t blk rid tid st sz).1.connections ∧
      RegionsAgree (sendData s f t blk rid tid st sz).1.connections) ∧
    (∀ (f t rr rid tid : String) (st sz : Int),
      SemaphoreInv (consumeData s f t rr rid tid st sz).1.connections ∧
      RegionsAgree (consumeData s f t rr rid tid st sz).1.connections) ∧
    (∀ (c : Connection) (pid rid : String),
      SemaphoreInv (sendRelease s c pid rid).connections ∧
      RegionsAgree (sendRelease s c pid rid).connections) ∧
    (∀ (c : Connection) (pid rid : String),
      SemaphoreInv (consumeRelease s c pid rid).connections ∧
      RegionsAgree (consumeRelease s c pid rid).connections) := by
  refine ⟨?_, ?_, ?_, ?_⟩
  · intro f t blk rid tid st sz
    rcases sendData_spec s f t blk rid tid st sz with ⟨_, heq⟩ | ⟨c, hfc, hcase⟩
    · rw [heq]
      exact ⟨hs, ha⟩
    · have hcmem := findConnection_mem hfc
      rcases hcase with ⟨_, _, heq⟩ | ⟨_, _, _, heq⟩ | ⟨r, _, _, _, heq⟩ |
        ⟨r, _, hm, hlock, heq⟩ | ⟨_, _, heq⟩
      · rw [heq]
        exact ⟨hs, ha⟩
      · rw [heq]
        exact ⟨hs, ha⟩
      · rw [heq]
        exact ⟨hs, ha⟩
      · rw [heq]
        have hinv := hs c hcmem r hm
        have hw : r.semaphore.hasWriter = false := by
          rcases hb : r.semaphore.hasWriter
          · rfl
          · exact absurd (Or.inl hb) hlock
        have hr0 : r.semaphore.currentReaders = 0 := by
          have : ¬ 0 < r.semaphore.currentReaders := fun h => hlock (Or.inr h)
          omega
        constructor
        · apply semInv_applyDeadlockCheck
          apply semInv_sendSuccess
          show SemaphoreInv (updateRegion s.connections r.id
            (fun sem => { sem with hasWriter := true }))
          apply semInv_updateRegion _ _ _ hs
          intro c0 hc0 rc hrc hrid
          have hsame : rc.semaphore = r.semaphore := ha c0 hc0 c hcmem rc r hrc hm hrid
          refine ⟨fun _ => ?_, ?_, ?_⟩
          · show rc.semaphore.currentReaders = 0
            rw [hsame, hr0]
          · show (0 : Int) ≤ rc.semaphore.currentReaders
            rw [hsame, hr0]
          · show rc.semaphore.currentReaders ≤ rc.semaphore.maxReaders
            rw [hsame]
            exact hinv.2.2
        · apply regionsAgree_applyDeadlockCheck
          apply regionsAgree_sendSuccess
          show RegionsAgree (updateRegion s.connections r.id
            (fun sem => { sem with hasWriter := true }))
          exact regionsAgree_updateRegion _ _ _ ha
      · rw [heq]
        exact ⟨semInv_applyDeadlockCheck _ (semInv_sendSuccess _ _ _ _ _ _ _ hs),
          regionsAgree_applyDeadlockCheck _ (regionsAgree_sendSuccess _ _ _ _ _ _ _ ha)⟩
  · intro f t rr rid tid st sz
    rcases consumeData_spec s f t rr rid tid st sz with ⟨_, heq⟩ | ⟨c, hfc, hcase⟩
    · rw [heq]
      exact ⟨hs, ha⟩
    · have hcmem := findConnection_mem hfc
      rcases hcase with ⟨_, _, heq⟩ | ⟨r, _, _, _, heq⟩ | ⟨r, _, _, _, _, heq⟩ |
        ⟨r, _, hm, hw, hmax, heq⟩ | ⟨_, _, heq⟩
      · rw [heq]
        exact ⟨hs, ha⟩
      · rw [heq]
        exact ⟨hs, ha⟩
      · rw [heq]
        exact ⟨hs, ha⟩
      · rw [heq]
        have hinv := hs c hcmem r hm
        constructor
        · apply semInv_consumeSuccess
          show SemaphoreInv (updateRegion s.connections r.id
            (fun sem => { sem with currentReaders := sem.currentReaders + 1 }))
          apply semInv_updateRegion _ _ _ hs
          intro c0 hc0 rc hrc hrid
          have hsame : rc.semaphore = r.semaphore := ha c0 hc0 c hcmem rc r hrc hm hrid
          refine ⟨fun hwr => ?_, ?_, ?_⟩
          · exfalso
            have : rc.semaphore.hasWriter = r.semaphore.hasWriter := by rw [hsame]
            rw [this] at hwr
            exact hw hwr
          · show (0 : Int) ≤ rc.semaphore.currentReaders + 1
            rw [hsame]
            have := hinv.2.1
            omega
          · show rc.semaphore.currentReaders + 1 ≤ rc.semaphore.maxReaders
            rw [hsame]
            omega
        · apply regionsAgree_consumeSuccess
          show RegionsAgree (updateRegion s.connections r.id
            (fun sem => { sem with currentReaders := sem.currentReaders + 1 }))
          exact regionsAgree_updateRegion _ _ _ ha
      · rw [heq]
        exact ⟨semInv_consumeSuccess _ _ _ _ _ _ _ hs,
          regionsAgree_consumeSuccess _ _ _ _ _ _ _ ha⟩
  · intro c pid rid
    constructor
    · rw [sendRelease_connections]
      rcases c.type <;> rcases c.memoryRegion with _ | r
      · exact hs
      · exact hs
      · exact hs
      · exact hs
      · exact hs
      · apply semInv_updateRegion _ _ _ hs
        intro c0 hc0 rc hrc _
        have hinv := hs c0 hc0 rc hrc
        exact ⟨fun h => absurd h (by simp), hinv.2.1, hinv.2.2⟩
    · rw [sendRelease_connections]
      rcases c.type <;> rcases c.memoryRegion with _ | r
      · exact ha
      · exact ha
      · exact ha
      · exact ha
      · exact ha
      · exact regionsAgree_updateRegion _ _ _ ha
  · intro c pid rid
    constructor
    · rw [consumeRelease_connections]
      rcases c.type <;> rcases c.memoryRegion with _ | r
      · exact hs
      · exact hs
      · exact hs
      · exact hs
      · exact hs
      · apply semInv_updateRegion _ _ _ hs
        intro c0 hc0 rc hrc _
        have hinv := hs c0 hc0 rc hrc
        refine ⟨fun h => ?_, ?_, ?_⟩
        · show max 0 (rc.semaphore.currentReaders - 1) = 0
          have := hinv.1 h
          omega
        · exact le_max_left 0 _
        · show max 0 (rc.semaphore.currentReaders - 1) ≤ rc.semaphore.maxReaders
          have h1 := hinv.2.1
          have h2 := hinv.2.2
          omega
    · rw [consumeRelease_connections]
      rcases c.type <;> rcases c.memoryRegion with _ | r
      · exact ha
      · exact ha
      · exact ha
      · exact ha
      · exact ha
      · exact regionsAgree_updateRegion _ _ _ ha

/-- Witness for C5: a successful write acquisition on a two-copy region
state keeps the invariant. -/
theorem c5_semaphore_invariant_witness :
    SemaphoreInv (sendData
      { processes := [sampleProcess "a", sampleProcess "b", sampleProcess "c"],
        connections := [activeMemConn "m1" "a" "b" "R", activeMemConn "m2" "c" "b" "R"],
        transfers := [] } "a" "b" false "r" "t" 0 1).1.connections :=
  ((c5_semaphore_invariant
    { processes := [sampleProcess "a", sampleProcess "b", sampleProcess "c"],
      connections := [activeMemConn "m1" "a" "b" "R", activeMemConn "m2" "c" "b" "R"],
      transfers := [] }
    (by
      intro c hc r hr
      fin_cases hc <;>
      · simp only [activeMemConn] at hr
        rw [Option.some_inj] at hr
        subst hr
        exact ⟨fun h => absurd h (by decide), by decide, by decide⟩)
    (by
      intro c hc c' hc' r r' hr hr' hid
      fin_cases hc <;> fin_cases hc' <;> simp_all [activeMemConn])).1
    "a" "b" false "r" "t" 0 1).1


/-! ## Claim C2: what a detected deadlock marks -/

/-- Counterexample to claim C2 as stated: on two processes joined by one
active queue connection the analyzer finds no cycle at all, yet
`checkForDeadlocks` (the only code that marks `deadlocked`) marks both
processes — processes outside any detected cycle change state. -/
theorem c2_saturation_counterexample :
    detectDeadlockCycles [sampleProcess "a", sampleProcess "b"]
      [⟨"q", "a", "b", IPCType.queue, CState.active, some 5, some 0, none⟩] = [] ∧
    (checkForDeadlocks [sampleProcess "a", sampleProcess "b"]
      [⟨"q", "a", "b", IPCType.queue, CState.active, some 5, some 0, none⟩]).1.map
      (·.state) = [PState.deadlocked, PState.deadlocked] := by
  decide

/-- Claim C2, amended: when the saturation policy flags a deadlock,
`checkForDeadlocks` marks ALL processes `deadlocked` (not merely cycle
members) and exactly the active connections `deadlocked`, independently of
cycles; otherwise it changes nothing.  In the three-process memory-cycle
scenario the analyzer reports exactly one cycle — process list
`[A, B, C, A]`, connection list the three edge ids — and all three processes
are marked `deadlocked`. -/
theorem c2_deadlock_marking :
    (∀ (ps : List Process) (cs : List Connection),
      (saturationDeadlock ps cs = true →
        (checkForDeadlocks ps cs).1 =
          ps.map (fun p => { p with state := PState.deadlocked }) ∧
        (checkForDeadlocks ps cs).2 =
          cs.map (fun c => { c with state :=
            if c.state = CState.active then CState.deadlocked else c.state })) ∧
      (saturationDeadlock ps cs = false → checkForDeadlocks ps cs = (ps, cs))) ∧
    detectDeadlockCycles memoryCycleState.processes memoryCycleState.connections =
      [⟨["A", "B", "C", "A"], ["m1", "m2", "m3"], false⟩] ∧
    (checkForDeadlocks memoryCycleState.processes
      memoryCycleState.connections).1.map (·.state) =
      [PState.deadlocked, PState.deadlocked, PState.deadlocked] := by
  refine ⟨?_, by decide, by decide⟩
  intro ps cs
  constructor
  · intro h
    simp [checkForDeadlocks, h]
  · intro h
    simp [checkForDeadlocks, h]

/-- Witness for the amended C2 at the acyclic saturated state. -/
theorem c2_deadlock_marking_witness :
    (checkForDeadlocks [sampleProcess "a", sampleProcess "b"]
      [⟨"q", "a", "b", IPCType.queue, CState.active, some 5, some 0, none⟩]).1 =
      [sampleProcess "a", sampleProcess "b"].map
        (fun p => { p with state := PState.deadlocked }) :=
  ((c2_deadlock_marking.1 _ _).1 (by decide)).1


/-! ## Claim C1: infrastructure lemmas for the DFS -/

theorem getD_append_left (l l' : List String) (i : Nat) (h : i < l.length) (d : String) :
    (l ++ l').getD i d = l.getD i d := by
  rw [List.getD_eq_getElem?_getD, List.getD_eq_getElem?_getD, List.getElem?_append_left h]

theorem getD_append_length (l : List String) (x d : String) :
    (l ++ [x]).getD l.length d = x := by
  rw [List.getD_eq_getElem?_getD, List.getElem?_append_right (le_refl _)]
  simp

theorem getD_drop (l : List String) (j i : Nat) (d : String) :
    (l.drop j).getD i d = l.getD (j + i) d := by
  rw [List.getD_eq_getElem?_getD, List.getD_eq_getElem?_getD, List.getElem?_drop]

theorem getD_eq_getElem (l : List String) (i : Nat) (d : String) (h : i < l.length) :
    l.getD i d = l[i] := by
  rw [List.getD_eq_getElem?_getD, List.getElem?_eq_getElem h]
  rfl

theorem mem_foldl_insertUniq (l : List String) :
    ∀ (acc : List String) (x : String), x ∈ l.foldl insertUniq acc ↔ x ∈ acc ∨ x ∈ l := by
  induction l with
  | nil => simp
  | cons a l ih =>
    intro acc x
    rw [List.foldl_cons, ih, mem_insertUniq]
    simp [List.mem_cons]
    tauto

theorem mem_firstDedup (l : List String) (x : String) : x ∈ firstDedup l ↔ x ∈ l := by
  unfold firstDedup
  rw [mem_foldl_insertUniq]
  simp

theorem nodup_foldl_insertUniq (l : List String) :
    ∀ acc : List String, acc.Nodup → (l.foldl insertUniq acc).Nodup := by
  induction l with
  | nil => exact fun acc h => h
  | cons a l ih =>
    intro acc h
    rw [List.foldl_cons]
    exact ih _ (nodup_insertUniq _ _ h)

theorem nodup_firstDedup (l : List String) : (firstDedup l).Nodup :=
  nodup_foldl_insertUniq l [] List.nodup_nil

theorem length_insertUniq_le (l : List String) (x : String) :
    (insertUniq l x).length ≤ l.length + 1 := by
  unfold insertUniq
  split
  · omega
  · simp

theorem length_foldl_insertUniq (l : List String) :
    ∀ acc : List String, (l.foldl insertUniq acc).length ≤ acc.length + l.length := by
  induction l with
  | nil => simp
  | cons a l ih =>
    intro acc
    rw [List.foldl_cons]
    have h1 := ih (insertUniq acc a)
    have h2 := length_insertUniq_le acc a
    simp only [List.length_cons]
    omega

theorem length_firstDedup_le (l : List String) : (firstDedup l).length ≤ l.length := by
  have := length_foldl_insertUniq l []
  simpa [firstDedup] using this

theorem mem_adjOf (ac : List Connection) (u v : String) :
    v ∈ adjOf ac u ↔ ∃ c ∈ ac, c.«from» = u ∧ c.«to» = v := by
  unfold adjOf
  simp only [List.mem_map, List.mem_filter, decide_eq_true_eq]
  constructor
  · rintro ⟨c, ⟨hc, hf⟩, ht⟩
    exact ⟨c, hc, hf, ht⟩
  · rintro ⟨c, hc, hf, ht⟩
    exact ⟨c, ⟨hc, hf⟩, ht⟩

theorem adjOf_find (cs : List Connection) (u v : String)
    (h : v ∈ adjOf (activeConnections cs) u) :
    ∃ c, (activeConnections cs).find?
        (fun c => decide (c.«from» = u ∧ c.«to» = v)) = some c ∧
      c ∈ activeConnections cs ∧ c.«from» = u ∧ c.«to» = v := by
  rcases (mem_adjOf _ u v).1 h with ⟨c0, hc0, hf0, ht0⟩
  have hsome : ((activeConnections cs).find?
      (fun c => decide (c.«from» = u ∧ c.«to» = v))).isSome = true :=
    List.find?_isSome.2 ⟨c0, hc0, by simp [hf0, ht0]⟩
  rcases Option.isSome_iff_exists.1 hsome with ⟨c, hc⟩
  refine ⟨c, hc, List.mem_of_find?_eq_some hc, ?_⟩
  have := List.find?_some hc
  simpa using this

theorem adjOf_subset_allNodes (ps : List Process) (cs : List Connection)
    (u v : String) (h : v ∈ adjOf (activeConnections cs) u) :
    v ∈ allNodes ps cs := by
  rcases (mem_adjOf _ u v).1 h with ⟨c, hc, _, ht⟩
  rw [allNodes, mem_firstDedup]
  exact List.mem_append_right _ (List.mem_map.2 ⟨c, hc, ht⟩)

theorem dfsKeys_subset_allNodes (ps : List Process) (cs : List Connection)
    (k : String) (h : k ∈ dfsKeys ps cs) : k ∈ allNodes ps cs := by
  rw [dfsKeys, mem_firstDedup] at h
  rw [allNodes, mem_firstDedup]
  rcases List.mem_append.1 h with h | h
  · exact List.mem_append_left _ (List.mem_append_left _ h)
  · exact List.mem_append_left _ (List.mem_append_right _ h)

theorem unvisitedCount_le (ns : List String) (st st' : DfsState)
    (h : ∀ x ∈ st.visited, x ∈ st'.visited) :
    unvisitedCount ns st' ≤ unvisitedCount ns st := by
  unfold unvisitedCount
  apply List.Sublist.length_le
  apply List.monotone_filter_right
  intro a ha
  simp only [decide_eq_true_eq] at ha ⊢
  exact fun hmem => ha (h a hmem)

theorem unvisitedCount_lt (ns : List String) (st st' : DfsState) (u : String)
    (hu : u ∈ ns) (hnv : u ∉ st.visited)
    (h : ∀ x ∈ st.visited, x ∈ st'.visited) (hu' : u ∈ st'.visited) :
    unvisitedCount ns st' < unvisitedCount ns st := by
  unfold unvisitedCount
  have hsub : (ns.filter fun x => decide (x ∉ st'.visited)).Sublist
      (ns.filter fun x => decide (x ∉ st.visited)) := by
    apply List.monotone_filter_right
    intro a ha
    simp only [decide_eq_true_eq] at ha ⊢
    exact fun hmem => ha (h a hmem)
  rcases Nat.lt_or_ge (ns.filter fun x => decide (x ∉ st'.visited)).length
      (ns.filter fun x => decide (x ∉ st.visited)).length with hlt | hge
  · exact hlt
  · exfalso
    have heq := hsub.eq_of_length (le_antisymm hsub.length_le hge)
    have hmem : u ∈ ns.filter fun x => decide (x ∉ st.visited) :=
      List.mem_filter.2 ⟨hu, by simpa using hnv⟩
    rw [← heq] at hmem
    rcases List.mem_filter.1 hmem with ⟨_, hdec⟩
    simp only [decide_eq_true_eq] at hdec
    exact hdec hu'

theorem foldl_cycles_mono (f : DfsState → String → DfsState)
    (hf : ∀ st x, st.cycles <+: (f st x).cycles) :
    ∀ (l : List String) (st : DfsState), st.cycles <+: (l.foldl f st).cycles := by
  intro l
  induction l with
  | nil => exact fun st => List.prefix_rfl
  | cons a rest ih =>
    intro st
    rw [List.foldl_cons]
    exact (hf st a).trans (ih _)

theorem findCycles_cycles_mono (ac : List Connection) :
    ∀ (fuel : Nat) (u : String) (path cp : List String) (st : DfsState),
      st.cycles <+: (findCycles ac fuel u path cp st).cycles := by
  intro fuel
  induction fuel with
  | zero => exact fun u path cp st => List.prefix_rfl
  | succ fuel ih =>
    intro u path cp st
    simp only [findCycles]
    split
    · exact List.prefix_append _ _
    · split
      · exact List.prefix_rfl
      · dsimp only
        refine foldl_cycles_mono _ ?_ _
          { st with visited := st.visited ++ [u], stack := st.stack ++ [u] }
        intro acc nb
        dsimp only
        cases hfind : ac.find? (fun c => decide (c.«from» = u ∧ c.«to» = nb)) with
        | some conn => simpa [hfind] using ih nb (path ++ [u]) (cp ++ [conn.id]) acc
        | none => simp [hfind]


theorem getD_drop_append (path : List String) (u : String) (j k : Nat)
    (hj : j ≤ path.length) (hk : k ≤ path.length - j) :
    (path.drop j ++ [u]).getD k "" = (path ++ [u]).getD (j + k) "" := by
  rcases Nat.lt_or_ge k (path.length - j) with h | h
  · rw [getD_append_left _ _ _ (by simp [List.length_drop]; omega), getD_drop,
      getD_append_left _ _ _ (by omega)]
  · have hk2 : k = path.length - j := le_antisymm hk h
    subst hk2
    have h1 : (path.drop j).length = path.length - j := by simp
    have h2 : j + (path.length - j) = path.length := by omega
    rw [← h1, getD_append_length, h1, h2, getD_append_length]

theorem chainWitness_snoc (cs : List Connection) (vs ws : List String) (v : String)
    (c : Connection) (hcw : ChainWitness cs vs ws) (hlen : ws.length + 1 = vs.length)
    (hc : c ∈ activeConnections cs) (hfrom : c.«from» = vs.getD ws.length "")
    (hto : c.«to» = v) : ChainWitness cs (vs ++ [v]) (ws ++ [c.id]) := by
  intro i hi
  simp only [List.length_append, List.length_singleton] at hi
  rcases Nat.lt_or_ge i ws.length with h | h
  · obtain ⟨c0, hc0, hid, hf, ht⟩ := hcw i h
    refine ⟨c0, hc0, ?_, ?_, ?_⟩
    · rw [getD_append_left _ _ _ h]; exact hid
    · rw [getD_append_left _ _ _ (by omega)]; exact hf
    · rw [getD_append_left _ _ _ (by omega)]; exact ht
  · have hieq : i = ws.length := by omega
    subst hieq
    refine ⟨c, hc, ?_, ?_, ?_⟩
    · rw [getD_append_length]
    · rw [getD_append_left _ _ _ (by omega)]; exact hfrom
    · rw [show ws.length + 1 = vs.length from hlen, getD_append_length]; exact hto

theorem findCycles_cycle_branch (cs : List Connection) (ns : List String) (u : String)
    (path cp : List String) (st : DfsState)
    (hstk : u ∈ st.stack) (hvis : ∀ x ∈ st.visited, x ∈ ns)
    (hok : DfsStateOK st) (hcy : CyclesOK cs st) (hp : PathOK cs u path cp st) :
    FindCyclesConcl cs ns u st
      { st with cycles := st.cycles ++
          [{ processes := path.drop (path.indexOf u) ++ [u],
             connections := cp.drop (path.indexOf u), resolved := false }] } := by
  obtain ⟨hsp, hnd, hlen, hcw⟩ := hp
  have hu_path : u ∈ path := (hsp u).1 hstk
  have hj : path.indexOf u < path.length := List.indexOf_lt_length.2 hu_path
  have hj' : path.indexOf u ≤ path.length := le_of_lt hj
  refine ⟨List.prefix_rfl, List.prefix_rfl, List.prefix_append _ _, rfl, hvis, hok, ?_, ?_, ?_⟩
  · intro hc
    exact absurd hc (by simp)
  · intro dc hdc
    rcases List.mem_append.1 hdc with h | h
    · exact hcy dc h
    · rcases List.mem_singleton.1 h with rfl
      refine ⟨?_, ?_, ?_, ?_⟩
      · simp only [List.length_append, List.length_drop, List.length_singleton]
        omega
      · simp only [List.length_append, List.length_drop, List.length_singleton, hlen]
      · have h0 : (path.drop (path.indexOf u) ++ [u]).getD 0 "" = u := by
          rw [getD_append_left _ _ _ (by simp [List.length_drop]; omega), getD_drop,
            Nat.add_zero, getD_eq_getElem _ _ _ hj]
          exact List.getElem_indexOf hj
        have h1 : (path.drop (path.indexOf u) ++ [u]).length - 1 =
            (path.drop (path.indexOf u)).length := by simp
        rw [h0, h1, getD_append_length]
      · intro i hi
        simp only [List.length_drop] at hi
        have hi' : path.indexOf u + i < cp.length := by omega
        obtain ⟨c, hcmem, hcid, hcf, hct⟩ := hcw (path.indexOf u + i) (by omega)
        refine ⟨c, hcmem, ?_, ?_, ?_⟩
        · rw [getD_drop]; exact hcid
        · rw [getD_drop_append path u _ i hj' (by omega)]; exact hcf
        · rw [getD_drop_append path u _ (i + 1) hj' (by omega),
            show path.indexOf u + (i + 1) = path.indexOf u + i + 1 from by omega]
          exact hct
  · intro h
    exact absurd (congrArg List.length h) (by simp)

theorem findCycles_visited_branch (cs : List Connection) (ns : List String) (u : String)
    (st : DfsState) (hstk : u ∉ st.stack) (hvisd : u ∈ st.visited)
    (hvis : ∀ x ∈ st.visited, x ∈ ns) (hok : DfsStateOK st)
    (hfo : FinishOrderInv cs st) (hcy : CyclesOK cs st) :
    FindCyclesConcl cs ns u st st :=
  ⟨List.prefix_rfl, List.prefix_rfl, List.prefix_rfl, rfl, hvis, hok, hfo, hcy,
    fun _ => ((hok.1 u).1 hvisd).resolve_right hstk⟩

theorem findCycles_full_assemble (cs : List Connection) (ns : List String) (u : String)
    (st st2 : DfsState) (hvisu : u ∉ st.visited) (hok : DfsStateOK st)
    (hB : FindCyclesFoldConcl cs ns (adjOf (activeConnections cs) u)
      { st with visited := st.visited ++ [u], stack := st.stack ++ [u] } st2) :
    FindCyclesConcl cs ns u st
      { st2 with stack := st2.stack.erase u, finished := st2.finished ++ [u] } := by
  obtain ⟨hv12, hf12, hc12, hs12, hvis2, hok2, hfo2, hcy2, hfin2⟩ := hB
  have hustk : u ∉ st.stack := fun h => hvisu ((hok.1 u).2 (Or.inr h))
  have hstack2 : st2.stack = st.stack ++ [u] := hs12
  have hv1 : st.visited ++ [u] <+: st2.visited := hv12
  have hf1 : st.finished <+: st2.finished := hf12
  have hc1 : st.cycles <+: st2.cycles := hc12
  have hu_stk2 : u ∈ st2.stack := by
    rw [hstack2]; exact List.mem_append_right _ (List.mem_singleton.2 rfl)
  have hu_fin2 : u ∉ st2.finished := fun h => hok2.2.1 u h hu_stk2
  have herase : st2.stack.erase u = st.stack := by
    rw [hstack2, List.erase_append_right _ hustk, List.erase_cons_head, List.append_nil]
  refine ⟨?_, ?_, ?_, ?_, ?_, ?_, ?_, ?_, ?_⟩
  · exact (List.prefix_append _ _).trans hv1
  · exact hf1.trans (List.prefix_append _ _)
  · exact hc1
  · exact herase
  · exact hvis2
  · obtain ⟨hiff2, hdisj2, hfnd2, hsnd2⟩ := hok2
    refine ⟨?_, ?_, ?_, ?_⟩
    · intro x
      constructor
      · intro hx
        rcases (hiff2 x).1 hx with h | h
        · exact Or.inl (List.mem_append_left _ h)
        · rw [hstack2] at h
          rcases List.mem_append.1 h with h | h
          · exact Or.inr (by rw [herase]; exact h)
          · exact Or.inl (List.mem_append_right _ h)
      · intro hx
        rcases hx with h | h
        · rcases List.mem_append.1 h with h | h
          · exact (hiff2 x).2 (Or.inl h)
          · rcases List.mem_singleton.1 h with rfl
            exact (hiff2 x).2 (Or.inr hu_stk2)
        · rw [herase] at h
          exact (hiff2 x).2 (Or.inr (by rw [hstack2]; exact List.mem_append_left _ h))
    · intro x hx
      rw [herase]
      rcases List.mem_append.1 hx with h | h
      · intro hcon
        exact hdisj2 x h (by rw [hstack2]; exact List.mem_append_left _ hcon)
      · rcases List.mem_singleton.1 h with rfl
        exact hustk
    · rw [List.nodup_append]
      refine ⟨hfnd2, List.nodup_singleton u, ?_⟩
      intro a ha hb
      rcases List.mem_singleton.1 hb with rfl
      exact hu_fin2 ha
    · rw [herase]; exact hok.2.2.2
  · intro hcyc w hw v hv
    have hcyc2 : st2.cycles = [] := hcyc
    have h0 : st.cycles = [] := List.prefix_nil.mp (hcyc2 ▸ hc1)
    have hfin2' : ∀ nb ∈ adjOf (activeConnections cs) u, nb ∈ st2.finished := by
      apply hfin2
      rw [hcyc2]
      exact h0.symm
    rcases List.mem_append.1 hw with h | h
    · have hfw := hfo2 hcyc2 w h v hv
      refine ⟨List.mem_append_left _ hfw.1, ?_⟩
      rw [List.indexOf_append_of_mem hfw.1, List.indexOf_append_of_mem h]
      exact hfw.2
    · rcases List.mem_singleton.1 h with rfl
      have hvfin : v ∈ st2.finished := hfin2' v hv
      refine ⟨List.mem_append_left _ hvfin, ?_⟩
      rw [List.indexOf_append_of_mem hvfin, List.indexOf_append_of_not_mem hu_fin2,
        List.indexOf_cons_self]
      have := List.indexOf_lt_length.2 hvfin
      omega
  · exact hcy2
  · intro _
    exact List.mem_append_right _ (List.mem_singleton.2 rfl)

theorem findCyclesFoldConcl_cons (cs : List Connection) (ns : List String)
    (nb : String) (l : List String) (st mid fin : DfsState)
    (hA : FindCyclesConcl cs ns nb st mid)
    (hrest : FindCyclesFoldConcl cs ns l mid fin) :
    FindCyclesFoldConcl cs ns (nb :: l) st fin := by
  obtain ⟨hv1, hf1, hc1, hs1, _, _, _, _, hd1⟩ := hA
  obtain ⟨hv2, hf2, hc2, hs2, hvis2, hok2, hfo2, hcy2, hd2⟩ := hrest
  refine ⟨hv1.trans hv2, hf1.trans hf2, hc1.trans hc2, by rw [hs2, hs1], hvis2, hok2,
    hfo2, hcy2, ?_⟩
  intro h x hx
  have hmid : st.cycles = mid.cycles :=
    hc1.eq_of_length (le_antisymm hc1.length_le (h ▸ hc2.length_le))
  rcases List.mem_cons.1 hx with rfl | hx
  · exact hf2.subset (hd1 hmid.symm)
  · exact hd2 (h.trans hmid) x hx


theorem findCycles_master (cs : List Connection) (ns : List String)
    (hclosed : ∀ u ∈ ns, ∀ v ∈ adjOf (activeConnections cs) u, v ∈ ns) :
    ∀ n : Nat,
      (∀ u path cp st, u ∈ ns → (∀ x ∈ st.visited, x ∈ ns) →
        unvisitedCount ns st < n → DfsStateOK st → FinishOrderInv cs st →
        CyclesOK cs st → PathOK cs u path cp st →
        FindCyclesConcl cs ns u st (findCycles (activeConnections cs) n u path cp st)) ∧
      (∀ u path cp (l : List String) st, u ∈ ns →
        (∀ nb ∈ l, nb ∈ adjOf (activeConnections cs) u) →
        (∀ x ∈ st.visited, x ∈ ns) → unvisitedCount ns st < n → DfsStateOK st →
        FinishOrderInv cs st → CyclesOK cs st →
        (∀ x, x ∈ st.stack ↔ x ∈ path ++ [u]) → (path ++ [u]).Nodup →
        cp.length = path.length → ChainWitness cs (path ++ [u]) cp →
        FindCyclesFoldConcl cs ns l st
          (l.foldl (fun acc nb =>
            ((activeConnections cs).find?
                (fun c => decide (c.«from» = u ∧ c.«to» = nb))).elim acc
              (fun conn => findCycles (activeConnections cs) n nb (path ++ [u])
                (cp ++ [conn.id]) acc)) st)) := by
  intro n
  induction n with
  | zero =>
    constructor
    · intro u path cp st _ _ hfuel
      exact absurd hfuel (Nat.not_lt_zero _)
    · intro u path cp l st _ _ _ hfuel
      exact absurd hfuel (Nat.not_lt_zero _)
  | succ n ih =>
    have hA : ∀ u path cp st, u ∈ ns → (∀ x ∈ st.visited, x ∈ ns) →
        unvisitedCount ns st < n + 1 → DfsStateOK st → FinishOrderInv cs st →
        CyclesOK cs st → PathOK cs u path cp st →
        FindCyclesConcl cs ns u st
          (findCycles (activeConnections cs) (n + 1) u path cp st) := by
      intro u path cp st hu hvis hfuel hok hfo hcy hp
      simp only [findCycles]
      by_cases hstk : u ∈ st.stack
      · rw [if_pos hstk]
        exact findCycles_cycle_branch cs ns u path cp st hstk hvis hok hcy hp
      rw [if_neg hstk]
      by_cases hvisd : u ∈ st.visited
      · rw [if_pos hvisd]
        exact findCycles_visited_branch cs ns u st hstk hvisd hvis hok hfo hcy
      rw [if_neg hvisd]
      obtain ⟨hsp, hnd, hlen, hcw⟩ := hp
      apply findCycles_full_assemble cs ns u st _ hvisd hok
      apply ih.2 u path cp (adjOf (activeConnections cs) u)
        { st with visited := st.visited ++ [u], stack := st.stack ++ [u] } hu
        (fun nb h => h)
      · intro x hx
        rcases List.mem_append.1 hx with h | h
        · exact hvis x h
        · rcases List.mem_singleton.1 h with rfl
          exact hu
      · have hlt := unvisitedCount_lt ns st
          { st with visited := st.visited ++ [u], stack := st.stack ++ [u] } u hu hvisd
          (fun x hx => List.mem_append_left _ hx)
          (List.mem_append_right _ (List.mem_singleton.2 rfl))
        omega
      · obtain ⟨hiff, hdisj, hfnd, hsnd⟩ := hok
        refine ⟨?_, ?_, hfnd, ?_⟩
        · intro x
          constructor
          · intro hx
            rcases List.mem_append.1 hx with h | h
            · rcases (hiff x).1 h with h2 | h2
              · exact Or.inl h2
              · exact Or.inr (List.mem_append_left _ h2)
            · rcases List.mem_singleton.1 h with rfl
              exact Or.inr (List.mem_append_right _ (List.mem_singleton.2 rfl))
          · intro hx
            rcases hx with h | h
            · exact List.mem_append_left _ ((hiff x).2 (Or.inl h))
            · rcases List.mem_append.1 h with h2 | h2
              · exact List.mem_append_left _ ((hiff x).2 (Or.inr h2))
              · exact List.mem_append_right _ h2
        · intro x hx hcon
          rcases List.mem_append.1 hcon with h | h
          · exact hdisj x hx h
          · rcases List.mem_singleton.1 h with rfl
            exact hvisd ((hiff x).2 (Or.inl hx))
        · rw [List.nodup_append]
          refine ⟨hsnd, List.nodup_singleton u, ?_⟩
          intro a ha hb
          rcases List.mem_singleton.1 hb with rfl
          exact hvisd ((hiff a).2 (Or.inr ha))
      · exact hfo
      · exact hcy
      · intro x
        show x ∈ st.stack ++ [u] ↔ x ∈ path ++ [u]
        rw [List.mem_append, List.mem_append, hsp x]
      · rw [List.nodup_append]
        refine ⟨hnd, List.nodup_singleton u, ?_⟩
        intro a ha hb
        rcases List.mem_singleton.1 hb with rfl
        exact hvisd ((hok.1 a).2 (Or.inr ((hsp a).2 ha)))
      · exact hlen
      · exact hcw
    refine ⟨hA, ?_⟩
    intro u path cp l st hu hl hvis hfuel hok hfo hcy hsp hnd hlen hcw
    revert st
    revert hl
    induction l with
    | nil =>
      intro hl st hvis hfuel hok hfo hcy hsp
      rw [List.foldl_nil]
      exact ⟨List.prefix_rfl, List.prefix_rfl, List.prefix_rfl, rfl, hvis, hok, hfo, hcy,
        fun _ x hx => absurd hx (List.not_mem_nil x)⟩
    | cons nb rest ihl =>
      intro hl st hvis hfuel hok hfo hcy hsp
      have hnb : nb ∈ adjOf (activeConnections cs) u := hl nb (List.mem_cons_self nb rest)
      obtain ⟨conn, hfind, hconnmem, hcf, hct⟩ := adjOf_find cs u nb hnb
      rw [List.foldl_cons, hfind]
      simp only [Option.elim]
      have hcall := hA nb (path ++ [u]) (cp ++ [conn.id]) st (hclosed u hu nb hnb) hvis hfuel
        hok hfo hcy
        ⟨hsp, hnd, by simp [hlen],
          chainWitness_snoc cs (path ++ [u]) cp nb conn hcw (by simp [hlen]) hconnmem
            (by rw [hcf, hlen, getD_append_length]) hct⟩
      obtain ⟨hv1, hf1, hc1, hs1, hvm, hokm, hfom, hcym, hdm⟩ := hcall
      have hfuelm : unvisitedCount ns
          (findCycles (activeConnections cs) (n + 1) nb (path ++ [u]) (cp ++ [conn.id]) st)
          < n + 1 := by
        have := unvisitedCount_le ns st
          (findCycles (activeConnections cs) (n + 1) nb (path ++ [u]) (cp ++ [conn.id]) st)
          (fun x hx => hv1.subset hx)
        omega
      have hrest := ihl (fun x hx => hl x (List.mem_cons_of_mem nb hx))
        (findCycles (activeConnections cs) (n + 1) nb (path ++ [u]) (cp ++ [conn.id]) st)
        hvm hfuelm hokm hfom hcym (fun x => by rw [hs1]; exact hsp x)
      exact findCyclesFoldConcl_cons cs ns nb rest st _ _
        ⟨hv1, hf1, hc1, hs1, hvm, hokm, hfom, hcym, hdm⟩ hrest


theorem unvisitedCount_le_length (ns : List String) (st : DfsState) :
    unvisitedCount ns st ≤ ns.length := List.length_filter_le _ _

theorem allNodes_length_le (ps : List Process) (cs : List Connection) :
    (allNodes ps cs).length ≤ ps.length + 2 * cs.length := by
  have h1 := length_firstDedup_le (ps.map (·.id) ++
    (activeConnections cs).map (·.«from») ++ (activeConnections cs).map (·.«to»))
  have h2 : (activeConnections cs).length ≤ cs.length := List.length_filter_le _ _
  simp only [List.length_append, List.length_map] at h1
  have h3 : (allNodes ps cs).length = (firstDedup (ps.map (·.id) ++
      (activeConnections cs).map (·.«from») ++
      (activeConnections cs).map (·.«to»))).length := rfl
  omega

theorem detect_fold_invariant (ps : List Process) (cs : List Connection) :
    ∀ (l : List String), (∀ k ∈ l, k ∈ allNodes ps cs) →
      ∀ st : DfsState, st.stack = [] → (∀ x ∈ st.visited, x ∈ allNodes ps cs) →
      DfsStateOK st → FinishOrderInv cs st → CyclesOK cs st →
      ∀ fin : DfsState,
        l.foldl (fun acc k => findCycles (activeConnections cs)
          (ps.length + 2 * cs.length + 1) k [] [] acc) st = fin →
        (∀ x ∈ st.finished, x ∈ fin.finished) ∧ DfsStateOK fin ∧
        FinishOrderInv cs fin ∧ CyclesOK cs fin ∧ st.cycles <+: fin.cycles ∧
        fin.stack = [] ∧ (fin.cycles = st.cycles → ∀ k ∈ l, k ∈ fin.finished) := by
  intro l
  induction l with
  | nil =>
    intro _ st hstk hvis hok hfo hcy fin hfin
    rw [List.foldl_nil] at hfin
    subst hfin
    exact ⟨fun x hx => hx, hok, hfo, hcy, List.prefix_rfl, hstk,
      fun _ k hk => absurd hk (List.not_mem_nil k)⟩
  | cons k rest ihl =>
    intro hmem st hstk hvis hok hfo hcy fin hfin
    simp only [List.foldl_cons] at hfin
    have hk : k ∈ allNodes ps cs := hmem k (List.mem_cons_self k rest)
    have hfuel : unvisitedCount (allNodes ps cs) st < ps.length + 2 * cs.length + 1 := by
      have h1 := unvisitedCount_le_length (allNodes ps cs) st
      have h2 := allNodes_length_le ps cs
      omega
    have hcall := (findCycles_master cs (allNodes ps cs)
        (fun u _ v hv => adjOf_subset_allNodes ps cs u v hv)
        (ps.length + 2 * cs.length + 1)).1 k [] [] st hk hvis hfuel hok hfo hcy
      ⟨fun x => by rw [hstk], List.nodup_nil, rfl, fun i hi => absurd hi (by simp)⟩
    obtain ⟨hv1, hf1, hc1, hs1, hvm, hokm, hfom, hcym, hdm⟩ := hcall
    have hstkm : (findCycles (activeConnections cs) (ps.length + 2 * cs.length + 1)
        k [] [] st).stack = [] := by rw [hs1, hstk]
    have hrest := ihl (fun x hx => hmem x (List.mem_cons_of_mem k hx)) _
      hstkm hvm hokm hfom hcym fin hfin
    obtain ⟨hfsub, hokf, hfof, hcyf, hcf, hstkf, hdf⟩ := hrest
    refine ⟨fun x hx => hfsub x (hf1.subset hx), hokf, hfof, hcyf, hc1.trans hcf,
      hstkf, ?_⟩
    intro h x hx
    have hmid : st.cycles = (findCycles (activeConnections cs)
        (ps.length + 2 * cs.length + 1) k [] [] st).cycles :=
      hc1.eq_of_length (le_antisymm hc1.length_le (h ▸ hcf.length_le))
    rcases List.mem_cons.1 hx with rfl | hx
    · exact hfsub x (hdm hmid.symm)
    · exact hdf (h.trans hmid) x hx

theorem no_cycle_of_topo (cs : List Connection) (F : List String)
    (hFO : ∀ u ∈ F, ∀ v ∈ adjOf (activeConnections cs) u,
      v ∈ F ∧ F.indexOf v < F.indexOf u)
    (hsrc : ∀ u v, ActiveEdge cs u v → u ∈ F) :
    ¬ HasCycle cs := by
  rintro ⟨vs, hlen2, hclose, hedges⟩
  have key : ∀ i, i ≤ vs.length - 1 →
      vs.getD i "" ∈ F ∧ F.indexOf (vs.getD i "") + i ≤ F.indexOf (vs.getD 0 "") := by
    intro i
    induction i with
    | zero =>
      intro _
      have hedge0 := hedges 0 (by omega)
      exact ⟨hsrc _ _ hedge0, by omega⟩
    | succ i ihi =>
      intro hi
      obtain ⟨hmemi, hidxi⟩ := ihi (by omega)
      have hedgei := hedges i (by omega)
      have hadj : vs.getD (i + 1) "" ∈ adjOf (activeConnections cs) (vs.getD i "") := by
        obtain ⟨c, hc, hf, ht⟩ := hedgei
        exact (mem_adjOf _ _ _).2 ⟨c, hc, hf, ht⟩
      obtain ⟨hm1, hlt⟩ := hFO _ hmemi _ hadj
      exact ⟨hm1, by omega⟩
  obtain ⟨_, hfinal⟩ := key (vs.length - 1) (le_refl _)
  rw [← hclose] at hfinal
  omega

theorem detectDeadlockCycles_sound (ps : List Process) (cs : List Connection) :
    ∀ dc ∈ detectDeadlockCycles ps cs, TracesCycle cs dc := by
  intro dc hdc
  have hinv := detect_fold_invariant ps cs (dfsKeys ps cs)
    (fun k hk => dfsKeys_subset_allNodes ps cs k hk)
    { visited := [], stack := [], finished := [], cycles := [] } rfl
    (fun x hx => absurd hx (List.not_mem_nil x))
    ⟨fun x => by simp, fun x hx => absurd hx (List.not_mem_nil x),
      List.nodup_nil, List.nodup_nil⟩
    (fun _ u hu => absurd hu (List.not_mem_nil u))
    (fun dc0 hdc0 => absurd hdc0 (List.not_mem_nil dc0))
    _ rfl
  exact hinv.2.2.2.1 dc hdc

theorem detectDeadlockCycles_complete (ps : List Process) (cs : List Connection)
    (h : HasCycle cs) : ∃ dc ∈ detectDeadlockCycles ps cs, TracesCycle cs dc := by
  by_cases hnil : detectDeadlockCycles ps cs = []
  · exfalso
    have hinv := detect_fold_invariant ps cs (dfsKeys ps cs)
      (fun k hk => dfsKeys_subset_allNodes ps cs k hk)
      { visited := [], stack := [], finished := [], cycles := [] } rfl
      (fun x hx => absurd hx (List.not_mem_nil x))
      ⟨fun x => by simp, fun x hx => absurd hx (List.not_mem_nil x),
        List.nodup_nil, List.nodup_nil⟩
      (fun _ u hu => absurd hu (List.not_mem_nil u))
      (fun dc0 hdc0 => absurd hdc0 (List.not_mem_nil dc0))
      _ rfl
    obtain ⟨_, _, hfof, _, _, _, hdf⟩ := hinv
    refine no_cycle_of_topo cs _ (hfof hnil) ?_ h
    intro u v hedge
    obtain ⟨c, hc, hf, _⟩ := hedge
    refine hdf hnil u ?_
    rw [dfsKeys, mem_firstDedup]
    exact List.mem_append_right _ (List.mem_map.2 ⟨c, hc, hf⟩)
  · obtain ⟨dc, hdc⟩ := List.exists_mem_of_ne_nil _ hnil
    exact ⟨dc, hdc, detectDeadlockCycles_sound ps cs dc hdc⟩


theorem preFold_adjNil (ac : List Connection) (F : Nat) :
    ∀ l : List String, (∀ x ∈ l, adjOf ac x = []) →
    ∀ st : DfsState, st.stack = [] →
      ∃ st', l.foldl (fun acc k => findCycles ac (F + 1) k [] [] acc) st = st' ∧
        st'.stack = [] ∧ st'.cycles = st.cycles ∧
        (∀ x, x ∈ st'.visited ↔ x ∈ st.visited ∨ x ∈ l) := by
  intro l
  induction l with
  | nil =>
    intro _ st hstk
    refine ⟨st, by rw [List.foldl_nil], hstk, rfl, fun x => by simp⟩
  | cons k rest ihl =>
    intro hadj st hstk
    have hadjk : adjOf ac k = [] := hadj k (List.mem_cons_self k rest)
    have hstep : findCycles ac (F + 1) k [] [] st =
        if k ∈ st.visited then st else
          { st with visited := st.visited ++ [k], finished := st.finished ++ [k] } := by
      simp only [findCycles]
      rw [if_neg (by rw [hstk]; exact List.not_mem_nil k)]
      by_cases hv : k ∈ st.visited
      · rw [if_pos hv, if_pos hv]
      · rw [if_neg hv, if_neg hv]
        rw [hadjk, List.foldl_nil, hstk]
        simp
    simp only [List.foldl_cons]
    rw [hstep]
    by_cases hv : k ∈ st.visited
    · rw [if_pos hv]
      obtain ⟨st', hfold, hstk', hcyc', hvis'⟩ :=
        ihl (fun x hx => hadj x (List.mem_cons_of_mem k hx)) st hstk
      refine ⟨st', hfold, hstk', hcyc', fun x => ?_⟩
      rw [hvis' x]
      constructor
      · rintro (h | h)
        · exact Or.inl h
        · exact Or.inr (List.mem_cons_of_mem k h)
      · rintro (h | h)
        · exact Or.inl h
        · rcases List.mem_cons.1 h with rfl | h
          · exact Or.inl hv
          · exact Or.inr h
    · rw [if_neg hv]
      obtain ⟨st', hfold, hstk', hcyc', hvis'⟩ :=
        ihl (fun x hx => hadj x (List.mem_cons_of_mem k hx))
          { st with visited := st.visited ++ [k], finished := st.finished ++ [k] } hstk
      refine ⟨st', hfold, hstk', hcyc', fun x => ?_⟩
      rw [hvis' x]
      simp only [List.mem_append, List.mem_singleton, List.mem_cons]
      tauto

theorem findCycles_three_cycle (cs : List Connection) (A B C : String)
    (c1 c2 c3 : Connection)
    (hAB : A ≠ B) (hBC : B ≠ C) (hAC : A ≠ C)
    (hac : activeConnections cs = [c1, c2, c3])
    (h1f : c1.«from» = A) (h1t : c1.«to» = B)
    (h2f : c2.«from» = B) (h2t : c2.«to» = C)
    (h3f : c3.«from» = C) (h3t : c3.«to» = A)
    (K : Nat) (st : DfsState) (hstk : st.stack = [])
    (hvA : A ∉ st.visited) (hvB : B ∉ st.visited) (hvC : C ∉ st.visited) :
    (findCycles (activeConnections cs) (K + 1 + 1 + 1 + 1) A [] [] st).cycles =
      st.cycles ++ [⟨[A, B, C, A], [c1.id, c2.id, c3.id], false⟩] := by
  have hBA := hAB.symm
  have hCB := hBC.symm
  have hCA := hAC.symm
  have hadjA : adjOf [c1, c2, c3] A = [B] := by
    simp [adjOf, h1f, h1t, h2f, h3f, hBA, hCA]
  have hadjB : adjOf [c1, c2, c3] B = [C] := by
    simp [adjOf, h1f, h2f, h2t, h3f, hAB, hCB]
  have hadjC : adjOf [c1, c2, c3] C = [A] := by
    simp [adjOf, h1f, h2f, h3f, h3t, hAC, hBC]
  have hfind1 : List.find? (fun c => decide (c.«from» = A ∧ c.«to» = B)) [c1, c2, c3] =
      some c1 := by
    simp [List.find?, h1f, h1t]
  have hfind2 : List.find? (fun c => decide (c.«from» = B ∧ c.«to» = C)) [c1, c2, c3] =
      some c2 := by
    simp [List.find?, h1f, h2f, h2t, hAB]
  have hfind3 : List.find? (fun c => decide (c.«from» = C ∧ c.«to» = A)) [c1, c2, c3] =
      some c3 := by
    simp [List.find?, h1f, h2f, h3f, h3t, hAC, hBC]
  rw [hac]
  simp only [findCycles, hadjA, hadjB, hadjC, List.foldl_cons, List.foldl_nil,
    hfind1, hfind2, hfind3, Option.elim]
  simp [hstk, hvA, hvB, hvC, hAB, hBA, hBC, hCB, hAC, hCA, List.indexOf_cons_self]


/-- C1: if the active connections form the directed 3-cycle A→B→C→A via
connections `c1`, `c2`, `c3` and the DFS scan order reaches `A` before `B` and
`C`, then `detectDeadlockCycles` returns a `DeadlockCycle` whose process list is
exactly `[A, B, C, A]` and whose connection list is exactly
`[c1.id, c2.id, c3.id]`; and, in general, for any input whose active-connection
graph contains a directed cycle, `detectDeadlockCycles` returns at least one
`DeadlockCycle` whose process and connection lists trace a cycle of that
graph. -/
theorem c1_cycle_detection (ps : List Process) (cs : List Connection)
    (A B C : String) (c1 c2 c3 : Connection) (pre post : List String)
    (hAB : A ≠ B) (hBC : B ≠ C) (hAC : A ≠ C)
    (hac : activeConnections cs = [c1, c2, c3])
    (h1f : c1.«from» = A) (h1t : c1.«to» = B)
    (h2f : c2.«from» = B) (h2t : c2.«to» = C)
    (h3f : c3.«from» = C) (h3t : c3.«to» = A)
    (hkeys : dfsKeys ps cs = pre ++ A :: post)
    (hpreB : B ∉ pre) (hpreC : C ∉ pre) :
    (⟨[A, B, C, A], [c1.id, c2.id, c3.id], false⟩ : DeadlockCycle) ∈
      detectDeadlockCycles ps cs ∧
    ∀ (ps' : List Process) (cs' : List Connection), HasCycle cs' →
      ∃ dc ∈ detectDeadlockCycles ps' cs', TracesCycle cs' dc := by
  refine ⟨?_, fun ps' cs' h => detectDeadlockCycles_complete ps' cs' h⟩
  have hApre : A ∉ pre := by
    have hnd : (dfsKeys ps cs).Nodup := nodup_firstDedup _
    rw [hkeys] at hnd
    intro hin
    exact (List.nodup_append.mp hnd).2.2 hin (List.mem_cons_self A post)
  have hpreadj : ∀ x ∈ pre, adjOf (activeConnections cs) x = [] := by
    intro x hx
    have hxA : A ≠ x := fun h => hApre (by rw [h]; exact hx)
    have hxB : B ≠ x := fun h => hpreB (by rw [h]; exact hx)
    have hxC : C ≠ x := fun h => hpreC (by rw [h]; exact hx)
    rw [hac]
    simp [adjOf, h1f, h2f, h3f, hxA, hxB, hxC]
  have h3 : (activeConnections cs).length = 3 := by rw [hac]; rfl
  have hle : (activeConnections cs).length ≤ cs.length := List.length_filter_le _ _
  obtain ⟨K, hK⟩ : ∃ K, ps.length + 2 * cs.length + 1 = K + 1 + 1 + 1 + 1 :=
    ⟨ps.length + 2 * cs.length - 3, by omega⟩
  simp only [detectDeadlockCycles]
  rw [hkeys, hK]
  simp only [List.foldl_append, List.foldl_cons]
  obtain ⟨stP, hfoldP, hstkP, hcycP, hvisP⟩ := preFold_adjNil (activeConnections cs)
    (K + 1 + 1 + 1) pre hpreadj { visited := [], stack := [], finished := [], cycles := [] }
    rfl
  rw [hfoldP]
  have hvA : A ∉ stP.visited := by
    intro h
    rcases (hvisP A).1 h with h | h
    · exact absurd h (List.not_mem_nil A)
    · exact hApre h
  have hvB : B ∉ stP.visited := by
    intro h
    rcases (hvisP B).1 h with h | h
    · exact absurd h (List.not_mem_nil B)
    · exact hpreB h
  have hvC : C ∉ stP.visited := by
    intro h
    rcases (hvisP C).1 h with h | h
    · exact absurd h (List.not_mem_nil C)
    · exact hpreC h
  have hAcall := findCycles_three_cycle cs A B C c1 c2 c3 hAB hBC hAC hac h1f h1t h2f h2t
    h3f h3t K stP hstkP hvA hvB hvC
  have hmono := foldl_cycles_mono
    (fun acc k => findCycles (activeConnections cs) (K + 1 + 1 + 1 + 1) k [] [] acc)
    (fun st0 x => findCycles_cycles_mono (activeConnections cs) (K + 1 + 1 + 1 + 1)
      x [] [] st0) post
    (findCycles (activeConnections cs) (K + 1 + 1 + 1 + 1) A [] [] stP)
  apply hmono.subset
  rw [hAcall]
  exact List.mem_append_right _ (List.mem_singleton.2 rfl)

/-- Witness for C1 on the concrete three-process circular memory state: the
cycle `[A, B, C, A]` with connections `m1`, `m2`, `m3` is reported, and the
general completeness conjunct is instantiated. -/
theorem c1_cycle_detection_witness :
    (⟨["A", "B", "C", "A"],
      [(activeMemConn "m1" "A" "B" "R1").id, (activeMemConn "m2" "B" "C" "R2").id,
        (activeMemConn "m3" "C" "A" "R3").id], false⟩ : DeadlockCycle) ∈
      detectDeadlockCycles memoryCycleState.processes memoryCycleState.connections ∧
    ∀ (ps' : List Process) (cs' : List Connection), HasCycle cs' →
      ∃ dc ∈ detectDeadlockCycles ps' cs', TracesCycle cs' dc :=
  c1_cycle_detection memoryCycleState.processes memoryCycleState.connections
    "A" "B" "C" (activeMemConn "m1" "A" "B" "R1") (activeMemConn "m2" "B" "C" "R2")
    (activeMemConn "m3" "C" "A" "R3") [] ["B", "C"]
    (by decide) (by decide) (by decide) (by decide)
    rfl rfl rfl rfl rfl rfl (by decide) (by decide) (by decide)

/-- C1 counterexample to the unconditional claim: with the same active 3-cycle
A→B→C→A but process `B` stored first, the single reported cycle is the rotation
`[B, C, A, B]` and no reported cycle has process list `[A, B, C, A]`. -/
theorem c1_order_counterexample :
    (detectDeadlockCycles memoryCycleStateB.processes memoryCycleStateB.connections =
      [⟨["B", "C", "A", "B"], ["m2", "m3", "m1"], false⟩]) ∧
    ∀ dc ∈ detectDeadlockCycles memoryCycleStateB.processes memoryCycleStateB.connections,
      dc.processes ≠ ["A", "B", "C", "A"] := by decide

end IPC
